import Mathlib

/-! # Kilo text viewer: key decoder, viewport, document loading and row rendering

A shallow embedding of `src/kilo.c`.

Modelling conventions.

* C `int` values are mathematical integers (`Int`).  The cursor column is the one value that the
  keys can drive out of the 32-bit range from the initial state (`E.cx++` has no upper guard), so
  `E.cx++` and `E.cx--` wrap modulo 2^32 as the compiled program does (`wrapInt`).  Every other
  `int` computation is exact; in the states reached before the column overflows they stay in
  range.
* A C `char` is represented by its value after integer promotion (`Int`); every comparison the
  source makes on a `char` is made on that promoted value.  `'\x1b'` is 27, `'['` is 91,
  `'O'` is 79, `'~'` is 126, `'0'`..`'9'` are 48..57, `'\r'` is 13 and `'\n'` is 10.
* Standard input is the finite list of outcomes of the successive `read(STDIN_FILENO, _, 1)`
  calls; after the listed outcomes every further read times out (returns 0).
* The global `struct editorConfig E` is passed explicitly; `orig_termios` belongs to the raw-mode
  session and is not part of the model.
* `realloc`/`malloc` are assumed to succeed.
-/

namespace Kilo

/-! ## Key codes (`enum editorKey`, `CTRL_KEY`) -/

/-- Value of the character literal `'\x1b'`. -/
def ESC : Int := 27

def ARROW_LEFT : Int := 1000
def ARROW_RIGHT : Int := 1001
def ARROW_UP : Int := 1002
def ARROW_DOWN : Int := 1003
def DEL_KEY : Int := 1004
def HOME_KEY : Int := 1005
def END_KEY : Int := 1006
def PAGE_UP : Int := 1007
def PAGE_DOWN : Int := 1008

/-- Macro `CTRL_KEY(k)`, that is `(k) & 0x1f`, for a character code `k`. -/
def CTRL_KEY (k : Nat) : Int := ((k &&& 0x1f : Nat) : Int)

/-! ## Standard input -/

/-- Outcome of one call `read(STDIN_FILENO, &c, 1)`. -/
inductive ReadResult where
  /-- The call returned 1 and stored the character `c`. -/
  | byte (c : Int)
  /-- The call returned 0: nothing arrived within the `VTIME` bound. -/
  | timeout
  /-- The call returned -1; `eagain` tells whether `errno == EAGAIN`. -/
  | failed (eagain : Bool)
  deriving DecidableEq, Repr

/-- One call `read(STDIN_FILENO, &x, 1)`: the character stored when the call returned 1
(`none` when it returned anything else), and the outcomes still to come. -/
def read1 : List ReadResult → Option Int × List ReadResult
  | [] => (none, [])
  | ReadResult.byte c :: rest => (some c, rest)
  | _ :: rest => (none, rest)

/-- Number of bytes delivered by a list of read outcomes. -/
def byteCount : List ReadResult → Nat
  | [] => 0
  | ReadResult.byte _ :: rest => byteCount rest + 1
  | _ :: rest => byteCount rest

/-- Read outcome that delivers no byte and lets the polling loop of `editorReadKey` retry. -/
def ReadResult.isIdle : ReadResult → Bool
  | ReadResult.timeout => true
  | ReadResult.failed true => true
  | _ => false

/-- The next read delivers no byte (it times out, fails, or the input has ended). -/
def noByteNext (inp : List ReadResult) : Bool := (read1 inp).1.isNone

/-- Result of `editorReadKey`. -/
inductive KeyResult where
  /-- The function returned `c`; `rest` are the read outcomes not yet consumed. -/
  | key (c : Int) (rest : List ReadResult)
  /-- The function called `die("read")`. -/
  | died
  /-- The polling loop is still waiting: the listed outcomes ended before a byte arrived. -/
  | waiting
  deriving DecidableEq, Repr

/-- Read outcomes left unconsumed by a call. -/
def KeyResult.rest : KeyResult → List ReadResult
  | KeyResult.key _ rest => rest
  | _ => []

/-- Number of input bytes a call of `editorReadKey` on `inp` took from the input. -/
def bytesConsumed (inp : List ReadResult) (r : KeyResult) : Nat :=
  byteCount inp - byteCount r.rest

/-- Body of `if (c == '\x1b') { ... }` in `editorReadKey` (lines 93-130). -/
def readEscape (inp : List ReadResult) : KeyResult :=
  match read1 inp with
  | (none, r1) => KeyResult.key ESC r1
  | (some s0, r1) =>
    match read1 r1 with
    | (none, r2) => KeyResult.key ESC r2
    | (some s1, r2) =>
      if s0 = 91 then
        if 48 ≤ s1 ∧ s1 ≤ 57 then
          match read1 r2 with
          | (none, r3) => KeyResult.key ESC r3
          | (some s2, r3) =>
            if s2 = 126 then
              if s1 = 49 then KeyResult.key HOME_KEY r3
              else if s1 = 51 then KeyResult.key DEL_KEY r3
              else if s1 = 52 then KeyResult.key END_KEY r3
              else if s1 = 53 then KeyResult.key PAGE_UP r3
              else if s1 = 54 then KeyResult.key PAGE_DOWN r3
              else if s1 = 55 then KeyResult.key HOME_KEY r3
              else if s1 = 56 then KeyResult.key END_KEY r3
              else KeyResult.key ESC r3
            else KeyResult.key ESC r3
        else
          if s1 = 65 then KeyResult.key ARROW_UP r2
          else if s1 = 66 then KeyResult.key ARROW_DOWN r2
          else if s1 = 67 then KeyResult.key ARROW_RIGHT r2
          else if s1 = 68 then KeyResult.key ARROW_LEFT r2
          else if s1 = 72 then KeyResult.key HOME_KEY r2
          else if s1 = 70 then KeyResult.key END_KEY r2
          else KeyResult.key ESC r2
      else if s0 = 79 then
        if s1 = 72 then KeyResult.key HOME_KEY r2
        else if s1 = 70 then KeyResult.key END_KEY r2
        else KeyResult.key ESC r2
      else KeyResult.key ESC r2

/-- Function `editorReadKey` (lines 85-134).  The polling loop retries while `read` returns 0 or
fails with `EAGAIN`, and dies on any other failure. -/
def editorReadKey : List ReadResult → KeyResult
  | [] => KeyResult.waiting
  | ReadResult.timeout :: rest => editorReadKey rest
  | ReadResult.failed true :: rest => editorReadKey rest
  | ReadResult.failed false :: _ => KeyResult.died
  | ReadResult.byte c :: rest => if c = ESC then readEscape rest else KeyResult.key c rest

/-! ## Editor state -/

/-- Struct `erow`: `chars` is the whole allocated buffer, `size` characters of text followed by
the terminating NUL. -/
structure erow where
  size : Int
  chars : List Int
  deriving DecidableEq, Repr, Inhabited

/-- Struct `editorConfig` without `orig_termios`. -/
structure editorConfig where
  cx : Int
  cy : Int
  rowoff : Int
  coloff : Int
  screenrows : Int
  screencols : Int
  numrows : Int
  row : List erow
  deriving DecidableEq, Repr

/-- Function `initEditor` (lines 356-365), given what `getWindowSize` stored in
`E.screenrows` and `E.screencols`. -/
def initEditor (rows cols : Int) : editorConfig :=
  { cx := 0, cy := 0, rowoff := 0, coloff := 0,
    screenrows := rows, screencols := cols, numrows := 0, row := [] }

/-! ## Viewport -/

/-- Function `editorScroll` (lines 224-237). -/
def editorScroll (E : editorConfig) : editorConfig :=
  let E := if E.cy < E.rowoff then { E with rowoff := E.cy } else E
  let E := if E.cy ≥ E.rowoff + E.screenrows then { E with rowoff := E.cy - E.screenrows + 1 } else E
  let E := if E.cx < E.coloff then { E with coloff := E.cx } else E
  let E := if E.cx ≥ E.coloff + E.screencols then { E with coloff := E.cx - E.screencols + 1 } else E
  E

/-- Value of a 32-bit two's-complement `int` after an arithmetic result `x` is stored in it:
`x` itself when `-2^31 <= x < 2^31`, and `x` reduced modulo 2^32 into that range otherwise. -/
def wrapInt (x : Int) : Int := (x + 2147483648) % 4294967296 - 2147483648

/-- Function `editorMoveCursor` (lines 295-316).  `E.cx--` and `E.cx++` are `int` operations:
their result is stored with `wrapInt`.  `E.cy--` is guarded by `E.cy != 0` and `E.cy++` by
`E.cy < E.numrows`. -/
def editorMoveCursor (key : Int) (E : editorConfig) : editorConfig :=
  if key = ARROW_LEFT then
    if E.cx ≠ 0 then { E with cx := wrapInt (E.cx - 1) } else E
  else if key = ARROW_RIGHT then
    { E with cx := wrapInt (E.cx + 1) }
  else if key = ARROW_UP then
    if E.cy ≠ 0 then { E with cy := E.cy - 1 } else E
  else if key = ARROW_DOWN then
    if E.cy < E.numrows then { E with cy := E.cy + 1 } else E
  else E

/-- The cursor lies inside the visible window. -/
def cursorVisible (E : editorConfig) : Prop :=
  (E.rowoff ≤ E.cy ∧ E.cy < E.rowoff + E.screenrows) ∧
  (E.coloff ≤ E.cx ∧ E.cx < E.coloff + E.screencols)

/-- One viewport operation: a cursor move or a scroll recomputation. -/
inductive ViewOp where
  | move (key : Int)
  | scroll
  deriving DecidableEq, Repr

/-- Effect of one viewport operation. -/
def ViewOp.apply (E : editorConfig) : ViewOp → editorConfig
  | ViewOp.move key => editorMoveCursor key E
  | ViewOp.scroll => editorScroll E

/-- Effect of a sequence of viewport operations, first to last. -/
def runOps (ops : List ViewOp) (E : editorConfig) : editorConfig :=
  ops.foldl ViewOp.apply E

/-! ## Key dispatch -/

/-- Loop `while (times--) editorMoveCursor(key);` for a counter that starts at `n ≥ 0`. -/
def repeatMove (key : Int) : Nat → editorConfig → editorConfig
  | 0, E => E
  | n + 1, E => repeatMove key n (editorMoveCursor key E)

/-- Result of the `switch (c)` of `editorProcessKeypress`. -/
inductive Dispatch where
  /-- The switch was left by `break` (or no case matched) with this state. -/
  | resume (E : editorConfig)
  /-- The process ended by `exit(status)` after these writes to standard output. -/
  | quit (status : Int) (writes : List (List Int))
  /-- The page loop started from a negative counter, which never reaches 0. -/
  | hang
  deriving DecidableEq, Repr

/-- The `switch (c)` of `editorProcessKeypress` (lines 321-351). -/
def dispatchKey (c : Int) (E : editorConfig) : Dispatch :=
  if c = CTRL_KEY 113 then
    Dispatch.quit 0 [[27, 91, 50, 74], [27, 91, 72]]
  else if c = HOME_KEY then
    Dispatch.resume { E with cx := 0 }
  else if c = END_KEY then
    Dispatch.resume { E with cx := E.screencols - 1 }
  else if c = PAGE_UP ∨ c = PAGE_DOWN then
    let times := E.screenrows
    if times < 0 then Dispatch.hang
    else Dispatch.resume
      (repeatMove (if c = PAGE_UP then ARROW_UP else ARROW_DOWN) times.toNat E)
  else if c = ARROW_UP ∨ c = ARROW_LEFT ∨ c = ARROW_DOWN ∨ c = ARROW_RIGHT then
    Dispatch.resume (editorMoveCursor c E)
  else Dispatch.resume E

/-- Result of one call of `editorProcessKeypress`. -/
inductive Keypress where
  /-- The function returned with this state, leaving `rest` unread. -/
  | resume (E : editorConfig) (rest : List ReadResult)
  /-- The process ended by `exit(status)` after these writes to standard output. -/
  | quit (status : Int) (writes : List (List Int))
  /-- The page loop never ends. -/
  | hang
  /-- Function `editorReadKey` called `die`. -/
  | died
  /-- Function `editorReadKey` is still polling for a first byte. -/
  | waiting
  deriving DecidableEq, Repr

/-- Function `editorProcessKeypress` (lines 318-352). -/
def editorProcessKeypress (inp : List ReadResult) (E : editorConfig) : Keypress :=
  match editorReadKey inp with
  | KeyResult.died => Keypress.died
  | KeyResult.waiting => Keypress.waiting
  | KeyResult.key c rest =>
    match dispatchKey c E with
    | Dispatch.resume E1 => Keypress.resume E1 rest
    | Dispatch.quit status writes => Keypress.quit status writes
    | Dispatch.hang => Keypress.hang

/-! ## Document loading -/

/-- Loop `while (linelen > 0 && (line[linelen - 1] == '\r' || line[linelen - 1] == '\n'))
linelen--;` of `editorOpen` (lines 191-193), started with `linelen = n`. -/
def stripLen (line : List Int) : Nat → Nat
  | 0 => 0
  | n + 1 => if line.getD n 0 = 13 ∨ line.getD n 0 = 10 then stripLen line n else n + 1

/-- Function `editorAppendRow` (lines 170-179): the row array grows to `numrows + 1` entries and
the entry at index `numrows` receives the first `len` characters of `s` and a terminating NUL. -/
def editorAppendRow (s : List Int) (len : Nat) (E : editorConfig) : editorConfig :=
  let atIdx := E.numrows
  { E with
    row := E.row.take atIdx.toNat ++ [{ size := (len : Int), chars := s.take len ++ [0] }]
    numrows := E.numrows + 1 }

/-- Loop `while ((linelen = getline(&line, &linecap, fp)) != -1) { ... }` of `editorOpen`
(lines 190-195); `lines` are the successive results of `getline`. -/
def editorOpenLines : List (List Int) → editorConfig → editorConfig
  | [], E => E
  | line :: more, E =>
    editorOpenLines more (editorAppendRow line (stripLen line line.length) E)

/-- Text of a stored row: the first `size` characters of its buffer. -/
def erow.text (r : erow) : List Int := r.chars.take r.size.toNat

/-- Carriage return or line feed. -/
def isEol (c : Int) : Bool := c = 13 || c = 10

/-- Specification of line storage: the line without its maximal trailing run of `'\r'` and
`'\n'` characters. -/
def stripTrailing (line : List Int) : List Int := line.rdropWhile isEol

/-- Specification of the stored row for an input line. -/
def storedRow (line : List Int) : erow :=
  { size := ((stripTrailing line).length : Int), chars := stripTrailing line ++ [0] }

/-! ## Append buffer and row rendering -/

/-- Struct `abuf`. -/
structure abuf where
  b : List Int
  len : Int
  deriving DecidableEq, Repr

/-- Initialiser `ABUF_INIT`. -/
def ABUF_INIT : abuf := { b := [], len := 0 }

/-- Function `abAppend` (lines 209-216): the first `len` characters of `s` are copied behind the
current content. -/
def abAppend (ab : abuf) (s : List Int) (len : Int) : abuf :=
  { b := ab.b ++ s.take len.toNat, len := ab.len + len }

def KILO_VERSION : String := "0.0.1"

/-- Characters of a string literal. -/
def cstr (s : String) : List Int := s.toList.map (fun ch => (ch.toNat : Int))

/-- Content of `welcome` after `snprintf(welcome, sizeof(welcome), "Kilo editor -- version %s",
KILO_VERSION)`; its length is the value `snprintf` returns. -/
def welcome : List Int := cstr ("Kilo editor -- version " ++ KILO_VERSION)

/-- Loop `while (padding--) abAppend(ab, " ", 1);` for a counter that starts at `n ≥ 0`. -/
def appendSpaces : Nat → abuf → abuf
  | 0, ab => ab
  | n + 1, ab => appendSpaces n (abAppend ab [32] 1)

/-- Lines 242-264 of `editorDrawRows`: what is appended for screen row `y` before the
erase-to-end-of-line sequence. -/
def drawRowContent (E : editorConfig) (y : Int) (ab : abuf) : abuf :=
  let filerow := y + E.rowoff
  if filerow ≥ E.numrows then
    if E.numrows = 0 ∧ y = Int.tdiv E.screenrows 3 then
      let welcomelen : Int := (welcome.length : Int)
      let welcomelen := if welcomelen > E.screencols then E.screencols else welcomelen
      let padding := Int.tdiv (E.screencols - welcomelen) 2
      let ab := if padding ≠ 0 then abAppend ab [126] 1 else ab
      let padding := if padding ≠ 0 then padding - 1 else padding
      let ab := appendSpaces padding.toNat ab
      abAppend ab welcome welcomelen
    else
      abAppend ab [126] 1
  else
    let r := E.row.getD filerow.toNat default
    let len := r.size - E.coloff
    let len := if len < 0 then 0 else len
    let len := if len > E.screencols then E.screencols else len
    abAppend ab (r.chars.drop E.coloff.toNat) len

/-- Body of the `for` loop of `editorDrawRows` (lines 242-269) for screen row `y`. -/
def drawRow (E : editorConfig) (y : Int) (ab : abuf) : abuf :=
  let ab := drawRowContent E y ab
  let ab := abAppend ab [27, 91, 75] 3
  if y < E.screenrows - 1 then abAppend ab [13, 10] 2 else ab

/-- Loop `for (...; y < E.screenrows; y++)` of `editorDrawRows` with `n` iterations left. -/
def drawRowsFrom (E : editorConfig) : Nat → Int → abuf → abuf
  | 0, _, ab => ab
  | n + 1, y, ab => drawRowsFrom E n (y + 1) (drawRow E y ab)

/-- Function `editorDrawRows` (lines 239-271). -/
def editorDrawRows (E : editorConfig) (ab : abuf) : abuf :=
  drawRowsFrom E E.screenrows.toNat 0 ab

/-- Banner line in the words of the specification, for a banner text of `n` characters: with
`L = min(n, cols)` and `p = (cols - L) / 2`, one `'~'` and `p - 1` spaces when `p > 0`, then the
first `L` characters of the text. -/
def bannerLine (n : Nat) (cols : Int) : List Int :=
  let L : Int := min (n : Int) cols
  let p : Int := (cols - L) / 2
  (if p > 0 then 126 :: List.replicate (p - 1).toNat 32 else []) ++ welcome.take L.toNat

/-! ## Tables of the specification and concrete inputs -/

/-- Recognised three-byte sequences `ESC s0 s1` with the key each one stands for. -/
def threeByteKeys : List (Int × Int × Int) :=
  [(91, 65, ARROW_UP), (91, 66, ARROW_DOWN), (91, 67, ARROW_RIGHT), (91, 68, ARROW_LEFT),
   (91, 72, HOME_KEY), (91, 70, END_KEY), (79, 72, HOME_KEY), (79, 70, END_KEY)]

/-- Recognised digits `d` of the four-byte sequences `ESC [ d ~` with the key each one stands
for. -/
def digitKeys : List (Int × Int) :=
  [(49, HOME_KEY), (51, DEL_KEY), (52, END_KEY), (53, PAGE_UP), (54, PAGE_DOWN),
   (55, HOME_KEY), (56, END_KEY)]

/-- The named keys of `enum editorKey`. -/
def namedKeys : List Int :=
  [ARROW_LEFT, ARROW_RIGHT, ARROW_UP, ARROW_DOWN, DEL_KEY, HOME_KEY, END_KEY, PAGE_UP, PAGE_DOWN]

/-- Bytes `ESC [ 6 ~`, the terminal encoding of Page Down. -/
def pageDownBytes : List ReadResult :=
  [ReadResult.byte 27, ReadResult.byte 91, ReadResult.byte 54, ReadResult.byte 126]

/-- Two idle polls before the first byte: a timeout and a failure with `EAGAIN`. -/
def idlePolls : List ReadResult := [ReadResult.timeout, ReadResult.failed true]

/-- Input that continues with ordinary characters. -/
def typedAhead : List ReadResult := [ReadResult.byte 113, ReadResult.byte 27]

/-- Input whose next read times out. -/
def pausedInput : List ReadResult := [ReadResult.timeout, ReadResult.byte 65]

/-- The initial state on a 24 by 80 terminal with an empty document. -/
def emptyState : editorConfig := initEditor 24 80

/-- The two lines `"abc\r\n"` and `"de\n"`. -/
def twoLines : List (List Int) := [[97, 98, 99, 13, 10], [100, 101, 10]]

/-- Frame rows in the words of the specification for the empty document on a 24 by 80 screen:
the banner on row 8 and the marker `'~'` on every other row, each row followed by `ESC [ K`, and
by CR LF except after the last row. -/
def emptyScreenRows : List Int :=
  ((List.range 24).map (fun y =>
    (if y = 8 then 126 :: List.replicate 25 32 ++ welcome else [126]) ++ [27, 91, 75] ++
      (if y < 23 then [13, 10] else []))).flatten

/-- A state with the cursor far outside the window. -/
def farState : editorConfig :=
  { cx := 200, cy := 0, rowoff := 3, coloff := 500,
    screenrows := 24, screencols := 80, numrows := 0, row := [] }

/-- A file of fifty lines `"x\n"`. -/
def fiftyLines : List (List Int) := List.replicate 50 [120, 10]

/-- The state after start-up on a 24 by 80 terminal and loading `fiftyLines`. -/
def loadedFifty : editorConfig := editorOpenLines fiftyLines (initEditor 24 80)

/-! ## Screen refresh -/

/-- Hide-cursor sequence of the specification: `ESC [ ? 2 5 l`. -/
def hideCursor : List Int := [27, 91, 63, 50, 53, 108]

/-- Cursor-home sequence of the specification: `ESC [ H`. -/
def cursorHome : List Int := [27, 91, 72]

/-- Show-cursor sequence of the specification: `ESC [ ? 2 5 h`. -/
def showCursor : List Int := [27, 91, 63, 50, 53, 104]

/-- Erase-to-end-of-line sequence of the specification: `ESC [ K`. -/
def eraseLine : List Int := [27, 91, 75]

/-- Row separator of the specification: CR LF. -/
def rowSeparator : List Int := [13, 10]

/-- Characters printed by the conversion `%d`: a minus sign for a negative value, then the
decimal digits. -/
def decimal (n : Int) : List Int :=
  if n < 0 then 45 :: (Nat.toDigits 10 n.natAbs).map (fun ch => (ch.toNat : Int))
  else (Nat.toDigits 10 n.toNat).map (fun ch => (ch.toNat : Int))

/-- Content of `buf` up to its terminating NUL after
`snprintf(buf, sizeof(buf), "\x1b[%d;%dH", r, c)` with `char buf[32]`: the characters `ESC`,
`[`, the conversion of `r`, `;`, the conversion of `c` and `H`, of which at most 31 are
stored. -/
def cursorBuf (r c : Int) : List Int :=
  ([27, 91] ++ decimal r ++ [59] ++ decimal c ++ [72]).take 31

/-- Number denoted by a string of decimal digit characters, most significant first. -/
def digitsValue (ds : List Int) : Int := ds.foldl (fun a d => 10 * a + (d - 48)) 0

/-- Specification of decimal notation for a number `m >= 0`: at least one character, every
character a digit `'0'`..`'9'`, no leading zero except in `"0"` itself, and the digits denote
`m`. -/
def canonicalDigits (ds : List Int) (m : Int) : Prop :=
  ds ≠ [] ∧ (∀ d ∈ ds, 48 ≤ d ∧ d ≤ 57) ∧ (ds.head? = some 48 → ds = [48]) ∧ digitsValue ds = m

/-- Specification of "printed in decimal": the notation of `n` for `n >= 0`, and a minus sign
followed by the notation of `-n` for `n < 0`. -/
def isDecimal (ds : List Int) (n : Int) : Prop :=
  (0 ≤ n → canonicalDigits ds n) ∧ (n < 0 → ∃ tl, ds = 45 :: tl ∧ canonicalDigits tl (-n))

/-- What a call of `editorRefreshScreen` leaves behind. -/
structure Refresh where
  /-- The editor state after the call. -/
  E : editorConfig
  /-- The content of `buf`. -/
  buf : List Int
  /-- The append buffer just before `abFree`. -/
  ab : abuf
  /-- The calls of `write` on standard output, each with the bytes it transmits. -/
  writes : List (List Int)
  deriving DecidableEq, Repr

/-- Function `editorRefreshScreen` (lines 273-291).  The appended literals are `"\x1b[?25l"`,
`"\x1b[H"` and `"\x1b[?25h"`.  `strlen(buf)` is the number of characters stored in `buf`, none
of which is NUL; `write(STDOUT_FILENO, ab.b, ab.len)` transmits the first `ab.len` bytes of the
buffer. -/
def editorRefreshScreen (E : editorConfig) : Refresh :=
  let E := editorScroll E
  let ab := ABUF_INIT
  let ab := abAppend ab [27, 91, 63, 50, 53, 108] 6
  let ab := abAppend ab [27, 91, 72] 3
  let ab := editorDrawRows E ab
  let buf := cursorBuf ((E.cy - E.rowoff) + 1) ((E.cx - E.coloff) + 1)
  let ab := abAppend ab buf (buf.length : Int)
  let ab := abAppend ab [27, 91, 63, 50, 53, 104] 6
  { E := E, buf := buf, ab := ab, writes := [ab.b.take ab.len.toNat] }

/-- The recorded length of an append buffer is the length of its content. -/
def abuf.exact (ab : abuf) : Prop := ab.len = (ab.b.length : Int)

/-- State whose coordinates are non-negative and whose rows lie inside their buffers: the states
in which every memory access of the renderer is in bounds. -/
def wellFormed (E : editorConfig) : Prop :=
  0 ≤ E.cx ∧ 0 ≤ E.cy ∧ 0 ≤ E.rowoff ∧ 0 ≤ E.coloff ∧ 0 ≤ E.screencols ∧
  E.numrows ≤ (E.row.length : Int) ∧ ∀ r ∈ E.row, r.size ≤ (r.chars.length : Int)

/-! ## Specification of the frame rows -/

/-- Content of screen row `y`: what lines 242-264 append for it to an empty buffer. -/
def rowContent (E : editorConfig) (y : Int) : List Int := (drawRowContent E y ABUF_INIT).b

/-- Row `y` of `n` rows in the words of the specification: its content, the erase sequence, and
the separator unless it is the last row. -/
def framedRow (E : editorConfig) (n y : Nat) : List Int :=
  rowContent E (y : Int) ++ eraseLine ++ (if y + 1 = n then [] else rowSeparator)

/-- The rows `0 .. screenrows - 1` in order, each framed. -/
def framedRows (E : editorConfig) : List Int :=
  ((List.range E.screenrows.toNat).map (framedRow E E.screenrows.toNat)).flatten

/-! ## Specification of page movement and of the loop steps -/

/-- Page Down as a clamped jump: `cy` becomes `min(cy + screenrows, numrows)`. -/
def pageDownJump (E : editorConfig) : editorConfig :=
  { E with cy := min (E.cy + E.screenrows) E.numrows }

/-- Page Up as a clamped jump: `cy` becomes `max(cy - screenrows, 0)`. -/
def pageUpJump (E : editorConfig) : editorConfig :=
  { E with cy := max (E.cy - E.screenrows) 0 }

/-- One step of the editor loop as far as the state is concerned: a scroll recomputation or the
dispatch of a key. -/
inductive LoopStep where
  | scroll
  | key (c : Int)
  deriving DecidableEq, Repr

/-- The step is the dispatch of the quit key. -/
def LoopStep.isQuit : LoopStep → Bool
  | LoopStep.key c => decide (c = CTRL_KEY 113)
  | LoopStep.scroll => false

/-- Effect of one step; `none` when the loop does not continue. -/
def LoopStep.run : LoopStep → editorConfig → Option editorConfig
  | LoopStep.scroll, E => some (editorScroll E)
  | LoopStep.key c, E =>
    match dispatchKey c E with
    | Dispatch.resume E1 => some E1
    | _ => none

/-- Effect of a sequence of steps, first to last. -/
def runSteps : List LoopStep → editorConfig → Option editorConfig
  | [], E => some E
  | s :: rest, E =>
    match s.run E with
    | some E1 => runSteps rest E1
    | none => none

/-- The initial state of the loop: `initEditor` followed by loading the rows `doc`. -/
def startState (doc : List erow) (rows cols : Int) : editorConfig :=
  { initEditor rows cols with numrows := (doc.length : Int), row := doc }

/-- The keys the `switch` of `editorProcessKeypress` has a case for, Ctrl-Q aside. -/
def handledKeys : List Int :=
  [HOME_KEY, END_KEY, PAGE_UP, PAGE_DOWN, ARROW_UP, ARROW_LEFT, ARROW_DOWN, ARROW_RIGHT]

/-- The document `twoLines` on a 24 by 2 screen, scrolled one column to the right. -/
def narrowTwo : editorConfig :=
  { editorOpenLines twoLines (initEditor 24 2) with coloff := 1 }

/-- A run of the loop: scroll, Page Down, End, three Right arrows, scroll, Delete, Page Up. -/
def sampleSteps : List LoopStep :=
  [LoopStep.scroll, LoopStep.key PAGE_DOWN, LoopStep.key END_KEY, LoopStep.key ARROW_RIGHT,
   LoopStep.key ARROW_RIGHT, LoopStep.key ARROW_RIGHT, LoopStep.scroll, LoopStep.key DEL_KEY,
   LoopStep.key PAGE_UP]

/-- The document `twoLines` on a screen of 3 rows by 20 columns with the cursor on column 11 of
row 2. -/
def sampleFrameState : editorConfig :=
  { editorOpenLines twoLines (initEditor 3 20) with cx := 11, cy := 2 }

/-- The frame expected for `sampleFrameState`, byte by byte: `ESC [ ? 2 5 l`, `ESC [ H`, the rows
`abc`, `de` and `~` each followed by `ESC [ K` and separated by CR LF, `ESC [ 3 ; 1 2 H`,
`ESC [ ? 2 5 h`. -/
def sampleFrame : List Int :=
  [27, 91, 63, 50, 53, 108, 27, 91, 72,
   97, 98, 99, 27, 91, 75, 13, 10,
   100, 101, 27, 91, 75, 13, 10,
   126, 27, 91, 75,
   27, 91, 51, 59, 49, 50, 72,
   27, 91, 63, 50, 53, 104]

/-- Invariant of the editor loop after at most `k` steps on the document `doc` and a screen of
`rows` by `cols`: document and dimensions are the initial ones, the coordinates are not negative,
`cx` has grown by at most one per step and the offsets are bounded accordingly. -/
def loopInvariant (doc : List erow) (rows cols : Int) (k : Nat) (E : editorConfig) : Prop :=
  E.row = doc ∧ E.numrows = (doc.length : Int) ∧ E.screenrows = rows ∧ E.screencols = cols ∧
  (0 ≤ E.cx ∧ E.cx ≤ cols - 1 + (k : Int)) ∧ (0 ≤ E.cy ∧ E.cy ≤ (doc.length : Int)) ∧
  (0 ≤ E.rowoff ∧ E.rowoff ≤ max 0 ((doc.length : Int) - rows + 1)) ∧
  (0 ≤ E.coloff ∧ E.coloff ≤ (k : Int))

/-- The run of 2^31 Right-arrow keys. -/
def rightArrows : List LoopStep := List.replicate 2147483648 (LoopStep.key ARROW_RIGHT)

/-! # Theorems -/

theorem CTRL_KEY_q : CTRL_KEY 113 = 17 := by decide

/-! ## Viewport lemmas -/

theorem editorScroll_cursor (E : editorConfig) :
    (editorScroll E).cx = E.cx ∧ (editorScroll E).cy = E.cy ∧
    (editorScroll E).screenrows = E.screenrows ∧ (editorScroll E).screencols = E.screencols ∧
    (editorScroll E).numrows = E.numrows ∧ (editorScroll E).row = E.row := by
  unfold editorScroll
  dsimp only
  split_ifs <;> simp

theorem editorScroll_rowoff (E : editorConfig) :
    (editorScroll E).rowoff =
      if E.cy ≥ (if E.cy < E.rowoff then E.cy else E.rowoff) + E.screenrows
      then E.cy - E.screenrows + 1
      else (if E.cy < E.rowoff then E.cy else E.rowoff) := by
  unfold editorScroll
  dsimp only
  split_ifs <;> simp_all

theorem editorScroll_coloff (E : editorConfig) :
    (editorScroll E).coloff =
      if E.cx ≥ (if E.cx < E.coloff then E.cx else E.coloff) + E.screencols
      then E.cx - E.screencols + 1
      else (if E.cx < E.coloff then E.cx else E.coloff) := by
  unfold editorScroll
  dsimp only
  split_ifs <;> simp_all

theorem editorScroll_visible (E : editorConfig) (hr : 0 < E.screenrows)
    (hc : 0 < E.screencols) : cursorVisible (editorScroll E) := by
  obtain ⟨hx, hy, hsr, hsc, -, -⟩ := editorScroll_cursor E
  unfold cursorVisible
  rw [editorScroll_rowoff, editorScroll_coloff, hx, hy, hsr, hsc]
  split_ifs <;> omega

theorem editorMoveCursor_dims (key : Int) (E : editorConfig) :
    (editorMoveCursor key E).screenrows = E.screenrows ∧
    (editorMoveCursor key E).screencols = E.screencols ∧
    (editorMoveCursor key E).numrows = E.numrows ∧
    (editorMoveCursor key E).row = E.row ∧
    (editorMoveCursor key E).rowoff = E.rowoff ∧
    (editorMoveCursor key E).coloff = E.coloff := by
  unfold editorMoveCursor
  split_ifs <;> simp

theorem runOps_dims (ops : List ViewOp) (E : editorConfig) :
    (runOps ops E).screenrows = E.screenrows ∧ (runOps ops E).screencols = E.screencols := by
  induction ops generalizing E with
  | nil => exact ⟨rfl, rfl⟩
  | cons op ops ih =>
    have h : runOps (op :: ops) E = runOps ops (op.apply E) := rfl
    rw [h]
    obtain ⟨h1, h2⟩ := ih (op.apply E)
    rw [h1, h2]
    cases op with
    | move key => exact ⟨(editorMoveCursor_dims key E).1, (editorMoveCursor_dims key E).2.1⟩
    | scroll => exact ⟨(editorScroll_cursor E).2.2.1, (editorScroll_cursor E).2.2.2.1⟩

theorem runOps_append_scroll (ops : List ViewOp) (E : editorConfig) :
    runOps (ops ++ [ViewOp.scroll]) E = editorScroll (runOps ops E) := by
  simp [runOps, ViewOp.apply]

/-- C1. Scroll invariant: with positive screen dimensions, `editorScroll` leaves the cursor where
it was and puts it inside the window, `rowoff ≤ cy < rowoff + screenrows` and
`coloff ≤ cx < coloff + screencols`, from any prior offsets; the same holds after any sequence of
`editorMoveCursor` and `editorScroll` calls that ends with `editorScroll`. -/
theorem scroll_invariant (E : editorConfig) (ops : List ViewOp)
    (hr : 0 < E.screenrows) (hc : 0 < E.screencols) :
    ((editorScroll E).cy = E.cy ∧ (editorScroll E).cx = E.cx ∧
      (editorScroll E).rowoff ≤ (editorScroll E).cy ∧
      (editorScroll E).cy < (editorScroll E).rowoff + (editorScroll E).screenrows ∧
      (editorScroll E).coloff ≤ (editorScroll E).cx ∧
      (editorScroll E).cx < (editorScroll E).coloff + (editorScroll E).screencols) ∧
    cursorVisible (runOps (ops ++ [ViewOp.scroll]) E) := by
  refine ⟨?_, ?_⟩
  · obtain ⟨⟨h1, h2⟩, h3, h4⟩ := editorScroll_visible E hr hc
    exact ⟨(editorScroll_cursor E).2.1, (editorScroll_cursor E).1, h1, h2, h3, h4⟩
  · rw [runOps_append_scroll]
    obtain ⟨h1, h2⟩ := runOps_dims ops E
    exact editorScroll_visible _ (by rw [h1]; exact hr) (by rw [h2]; exact hc)

theorem scroll_invariant_witness :
    ((editorScroll farState).cy = farState.cy ∧ (editorScroll farState).cx = farState.cx ∧
      (editorScroll farState).rowoff ≤ (editorScroll farState).cy ∧
      (editorScroll farState).cy <
        (editorScroll farState).rowoff + (editorScroll farState).screenrows ∧
      (editorScroll farState).coloff ≤ (editorScroll farState).cx ∧
      (editorScroll farState).cx <
        (editorScroll farState).coloff + (editorScroll farState).screencols) ∧
    cursorVisible (runOps ([ViewOp.move ARROW_DOWN, ViewOp.scroll, ViewOp.move ARROW_LEFT]
      ++ [ViewOp.scroll]) farState) :=
  scroll_invariant farState [ViewOp.move ARROW_DOWN, ViewOp.scroll, ViewOp.move ARROW_LEFT]
    (by decide) (by decide)

/-! ## Loading and page movement lemmas -/

theorem editorAppendRow_fields (s : List Int) (len : Nat) (E : editorConfig) :
    (editorAppendRow s len E).cx = E.cx ∧ (editorAppendRow s len E).cy = E.cy ∧
    (editorAppendRow s len E).rowoff = E.rowoff ∧ (editorAppendRow s len E).coloff = E.coloff ∧
    (editorAppendRow s len E).screenrows = E.screenrows ∧
    (editorAppendRow s len E).screencols = E.screencols ∧
    (editorAppendRow s len E).numrows = E.numrows + 1 := by
  simp [editorAppendRow]

theorem editorOpenLines_fields (lines : List (List Int)) (E : editorConfig) :
    (editorOpenLines lines E).cx = E.cx ∧ (editorOpenLines lines E).cy = E.cy ∧
    (editorOpenLines lines E).rowoff = E.rowoff ∧ (editorOpenLines lines E).coloff = E.coloff ∧
    (editorOpenLines lines E).screenrows = E.screenrows ∧
    (editorOpenLines lines E).screencols = E.screencols ∧
    (editorOpenLines lines E).numrows = E.numrows + lines.length := by
  induction lines generalizing E with
  | nil => simp [editorOpenLines]
  | cons line more ih =>
    obtain ⟨h1, h2, h3, h4, h5, h6, h7⟩ := ih (editorAppendRow line (stripLen line line.length) E)
    obtain ⟨g1, g2, g3, g4, g5, g6, g7⟩ := editorAppendRow_fields line (stripLen line line.length) E
    rw [editorOpenLines]
    refine ⟨h1.trans g1, h2.trans g2, h3.trans g3, h4.trans g4, h5.trans g5, h6.trans g6, ?_⟩
    rw [h7, g7, List.length_cons]
    push_cast
    omega

theorem repeatMove_down (n : Nat) (E : editorConfig) (h : E.cy + n ≤ E.numrows) :
    repeatMove ARROW_DOWN n E = { E with cy := E.cy + n } := by
  induction n generalizing E with
  | zero => simp [repeatMove]
  | succ n ih =>
    have hlt : E.cy < E.numrows := by push_cast at h; omega
    have hstep : editorMoveCursor ARROW_DOWN E = { E with cy := E.cy + 1 } := by
      simp [editorMoveCursor, ARROW_DOWN, ARROW_LEFT, ARROW_RIGHT, ARROW_UP, hlt]
    rw [repeatMove, hstep, ih]
    · simp only [Nat.cast_add, Nat.cast_one]
      congr 1
      omega
    · simp only
      push_cast at h
      omega

theorem pageDown_resume (E : editorConfig) (rest : List ReadResult)
    (hcy : E.cy = 0) (hsr : E.screenrows = 24) (hn : E.numrows = 50) :
    editorProcessKeypress (pageDownBytes ++ rest) E = Keypress.resume { E with cy := 24 } rest := by
  have hmove := repeatMove_down 24 E (by rw [hcy, hn]; decide)
  rw [hcy] at hmove
  simp only [editorProcessKeypress, pageDownBytes, List.cons_append, List.nil_append,
    editorReadKey, readEscape, read1]
  simp [ESC, dispatchKey, PAGE_DOWN, PAGE_UP, HOME_KEY, END_KEY, CTRL_KEY_q, hsr, hmove]

theorem loadedFifty_fields :
    loadedFifty.cy = 0 ∧ loadedFifty.rowoff = 0 ∧ loadedFifty.screenrows = 24 ∧
    loadedFifty.numrows = 50 := by
  obtain ⟨-, h2, h3, -, h5, -, h7⟩ := editorOpenLines_fields fiftyLines (initEditor 24 80)
  exact ⟨h2, h3, h5, h7⟩

/-- C2 (as stated, refuted). After start-up on a 24 by 80 terminal, loading a fifty-line file and
processing one Page Down key, the scroll recomputation gives `cy == 24` but `rowoff == 1`, not
`rowoff == 24`. -/
theorem pageDown_rowoff_is_not_24 :
    ∃ E1, editorProcessKeypress pageDownBytes loadedFifty = Keypress.resume E1 [] ∧
      (editorScroll E1).cy = 24 ∧ (editorScroll E1).rowoff = 1 ∧
      ¬ ((editorScroll E1).rowoff = 24 ∧ (editorScroll E1).cy = 24) := by
  obtain ⟨hcy, hro, hsr, hn⟩ := loadedFifty_fields
  have h := pageDown_resume loadedFifty [] hcy hsr hn
  rw [List.append_nil] at h
  have hrow : (editorScroll { loadedFifty with cy := 24 }).rowoff = 1 := by
    rw [editorScroll_rowoff]
    simp [hro, hsr]
  refine ⟨_, h, (editorScroll_cursor _).2.1, hrow, ?_⟩
  rw [hrow]
  intro hc
  exact absurd hc.1 (by decide)

/-- C2 (amended). From the initial state with any fifty-line document on a 24 by 80 screen, one
Page Down key (bytes `ESC [ 6 ~`) followed by `editorScroll` gives `cy == 24` and `rowoff == 1`:
the cursor sits on the last visible row. -/
theorem pageDown_end_to_end (lines : List (List Int)) (rest : List ReadResult)
    (h : lines.length = 50) :
    ∃ E1, editorProcessKeypress (pageDownBytes ++ rest) (editorOpenLines lines (initEditor 24 80))
        = Keypress.resume E1 rest ∧
      (editorScroll E1).rowoff = 1 ∧ (editorScroll E1).cy = 24 := by
  obtain ⟨-, h2, h3, -, h5, -, h7⟩ := editorOpenLines_fields lines (initEditor 24 80)
  have h7 : (editorOpenLines lines (initEditor 24 80)).numrows = 50 := by
    rw [h7, h]; rfl
  refine ⟨_, pageDown_resume _ rest h2 h5 h7, ?_, ?_⟩
  · rw [editorScroll_rowoff]
    simp [h3, h5]
    rfl
  · rw [(editorScroll_cursor _).2.1]

theorem pageDown_end_to_end_witness :
    fiftyLines.length = 50 ∧
    ∃ E1, editorProcessKeypress (pageDownBytes ++ [])
          (editorOpenLines fiftyLines (initEditor 24 80)) = Keypress.resume E1 [] ∧
      (editorScroll E1).rowoff = 1 ∧ (editorScroll E1).cy = 24 :=
  ⟨by decide, pageDown_end_to_end fiftyLines [] (by decide)⟩

/-! ## Key decoder -/

theorem editorReadKey_idle (idle inp : List ReadResult)
    (hidle : ∀ r ∈ idle, r.isIdle = true) :
    editorReadKey (idle ++ inp) = editorReadKey inp := by
  induction idle with
  | nil => rfl
  | cons r idle ih =>
    have hr := hidle r (List.mem_cons_self r idle)
    have ih2 := ih (fun x hx => hidle x (List.mem_cons_of_mem r hx))
    cases r with
    | byte c => simp [ReadResult.isIdle] at hr
    | timeout => simpa [editorReadKey] using ih2
    | failed e =>
      cases e with
      | false => simp [ReadResult.isIdle] at hr
      | true => simpa [editorReadKey] using ih2

theorem byteCount_idle (idle inp : List ReadResult)
    (hidle : ∀ r ∈ idle, r.isIdle = true) :
    byteCount (idle ++ inp) = byteCount inp := by
  induction idle with
  | nil => rfl
  | cons r idle ih =>
    have hr := hidle r (List.mem_cons_self r idle)
    have ih2 := ih (fun x hx => hidle x (List.mem_cons_of_mem r hx))
    cases r with
    | byte c => simp [ReadResult.isIdle] at hr
    | timeout => simpa [byteCount] using ih2
    | failed e => simpa [byteCount] using ih2

/-- C3. When the first byte `b` that arrives (after any number of idle polls) is not the escape
byte, `editorReadKey` returns `b` itself, leaves everything behind that byte unread, and has
consumed exactly one byte. -/
theorem readKey_plain_byte (idle rest : List ReadResult) (b : Int)
    (hidle : ∀ r ∈ idle, r.isIdle = true) (hb : b ≠ 27) :
    editorReadKey (idle ++ ReadResult.byte b :: rest) = KeyResult.key b rest ∧
    bytesConsumed (idle ++ ReadResult.byte b :: rest)
      (editorReadKey (idle ++ ReadResult.byte b :: rest)) = 1 := by
  have h : editorReadKey (idle ++ ReadResult.byte b :: rest) = KeyResult.key b rest := by
    rw [editorReadKey_idle idle _ hidle]
    simp [editorReadKey, ESC, hb]
  refine ⟨h, ?_⟩
  rw [h, bytesConsumed, byteCount_idle idle _ hidle]
  simp [byteCount, KeyResult.rest]

theorem readKey_plain_byte_witness :
    editorReadKey (idlePolls ++ ReadResult.byte 97 :: typedAhead) = KeyResult.key 97 typedAhead ∧
    bytesConsumed (idlePolls ++ ReadResult.byte 97 :: typedAhead)
      (editorReadKey (idlePolls ++ ReadResult.byte 97 :: typedAhead)) = 1 :=
  readKey_plain_byte idlePolls typedAhead 97 (by decide) (by decide)

/-- C4. For each recognised three-byte sequence `ESC s0 s1` (`ESC [ A/B/C/D/H/F`, `ESC O H/F`),
whatever follows it, `editorReadKey` returns the documented key, leaves what follows unread and
has consumed exactly three bytes. -/
theorem readKey_three_byte (idle rest : List ReadResult) (s0 s1 k : Int)
    (hidle : ∀ r ∈ idle, r.isIdle = true) (hk : (s0, s1, k) ∈ threeByteKeys) :
    editorReadKey (idle ++ ReadResult.byte 27 :: ReadResult.byte s0 :: ReadResult.byte s1 :: rest)
      = KeyResult.key k rest ∧
    bytesConsumed
      (idle ++ ReadResult.byte 27 :: ReadResult.byte s0 :: ReadResult.byte s1 :: rest)
      (editorReadKey
        (idle ++ ReadResult.byte 27 :: ReadResult.byte s0 :: ReadResult.byte s1 :: rest)) = 3 := by
  have h : editorReadKey
      (idle ++ ReadResult.byte 27 :: ReadResult.byte s0 :: ReadResult.byte s1 :: rest)
      = KeyResult.key k rest := by
    rw [editorReadKey_idle idle _ hidle]
    simp only [threeByteKeys, List.mem_cons, Prod.mk.injEq, List.mem_nil_iff, or_false] at hk
    rcases hk with h | h | h | h | h | h | h | h <;> obtain ⟨rfl, rfl, rfl⟩ := h <;>
      simp [editorReadKey, readEscape, read1, ESC]
  refine ⟨h, ?_⟩
  rw [h, bytesConsumed, byteCount_idle idle _ hidle]
  simp only [byteCount, KeyResult.rest]
  omega

theorem readKey_three_byte_witness :
    editorReadKey (idlePolls ++ ReadResult.byte 27 :: ReadResult.byte 79 :: ReadResult.byte 70
        :: typedAhead) = KeyResult.key END_KEY typedAhead ∧
    bytesConsumed
      (idlePolls ++ ReadResult.byte 27 :: ReadResult.byte 79 :: ReadResult.byte 70 :: typedAhead)
      (editorReadKey (idlePolls ++ ReadResult.byte 27 :: ReadResult.byte 79 :: ReadResult.byte 70
        :: typedAhead)) = 3 :=
  readKey_three_byte idlePolls typedAhead 79 70 END_KEY (by decide) (by decide)

/-- C5. For each digit `d` among 1, 3, 4, 5, 6, 7, 8, on input `ESC [ d ~` followed by anything,
`editorReadKey` returns the key of the digit table, leaves what follows unread and has consumed
exactly four bytes. -/
theorem readKey_four_byte (idle rest : List ReadResult) (d k : Int)
    (hidle : ∀ r ∈ idle, r.isIdle = true) (hk : (d, k) ∈ digitKeys) :
    editorReadKey (idle ++ ReadResult.byte 27 :: ReadResult.byte 91 :: ReadResult.byte d
        :: ReadResult.byte 126 :: rest) = KeyResult.key k rest ∧
    bytesConsumed
      (idle ++ ReadResult.byte 27 :: ReadResult.byte 91 :: ReadResult.byte d
        :: ReadResult.byte 126 :: rest)
      (editorReadKey (idle ++ ReadResult.byte 27 :: ReadResult.byte 91 :: ReadResult.byte d
        :: ReadResult.byte 126 :: rest)) = 4 := by
  have h : editorReadKey (idle ++ ReadResult.byte 27 :: ReadResult.byte 91 :: ReadResult.byte d
      :: ReadResult.byte 126 :: rest) = KeyResult.key k rest := by
    rw [editorReadKey_idle idle _ hidle]
    simp only [digitKeys, List.mem_cons, Prod.mk.injEq, List.mem_nil_iff, or_false] at hk
    rcases hk with h | h | h | h | h | h | h <;> obtain ⟨rfl, rfl⟩ := h <;>
      simp [editorReadKey, readEscape, read1, ESC]
  refine ⟨h, ?_⟩
  rw [h, bytesConsumed, byteCount_idle idle _ hidle]
  simp only [byteCount, KeyResult.rest]
  omega

theorem readKey_four_byte_witness :
    editorReadKey (idlePolls ++ ReadResult.byte 27 :: ReadResult.byte 91 :: ReadResult.byte 51
        :: ReadResult.byte 126 :: typedAhead) = KeyResult.key DEL_KEY typedAhead ∧
    bytesConsumed
      (idlePolls ++ ReadResult.byte 27 :: ReadResult.byte 91 :: ReadResult.byte 51
        :: ReadResult.byte 126 :: typedAhead)
      (editorReadKey (idlePolls ++ ReadResult.byte 27 :: ReadResult.byte 91 :: ReadResult.byte 51
        :: ReadResult.byte 126 :: typedAhead)) = 4 :=
  readKey_four_byte idlePolls typedAhead 51 DEL_KEY (by decide) (by decide)

theorem read1_byte (c : Int) (rest : List ReadResult) :
    read1 (ReadResult.byte c :: rest) = (some c, rest) := rfl

theorem read1_of_noByteNext (rest : List ReadResult) (hno : noByteNext rest = true) :
    read1 rest = (none, rest.tail) := by
  cases rest with
  | nil => rfl
  | cons r rest =>
    cases r with
    | byte c => simp [noByteNext, read1] at hno
    | timeout => rfl
    | failed e => rfl

/-- C6. Once the escape byte has been read, a read that delivers no byte (time-out, failure or
end of input) makes `editorReadKey` return ESCAPE (27), which is none of the named keys: this
holds when the failing read is the one after `ESC`, the one after `ESC b1` for any byte `b1`, and
the one after `ESC [ d` for a digit `d`. -/
theorem readKey_truncated (idle rest : List ReadResult) (b1 d : Int)
    (hidle : ∀ r ∈ idle, r.isIdle = true) (hno : noByteNext rest = true)
    (hd : 48 ≤ d ∧ d ≤ 57) :
    editorReadKey (idle ++ ReadResult.byte 27 :: rest) = KeyResult.key 27 rest.tail ∧
    editorReadKey (idle ++ ReadResult.byte 27 :: ReadResult.byte b1 :: rest)
      = KeyResult.key 27 rest.tail ∧
    editorReadKey (idle ++ ReadResult.byte 27 :: ReadResult.byte 91 :: ReadResult.byte d :: rest)
      = KeyResult.key 27 rest.tail ∧
    (27 : Int) = ESC ∧ (27 : Int) ∉ namedKeys := by
  have h1 := read1_of_noByteNext rest hno
  refine ⟨?_, ?_, ?_, rfl, by decide⟩
  · rw [editorReadKey_idle idle _ hidle]
    simp [editorReadKey, readEscape, h1, ESC]
  · rw [editorReadKey_idle idle _ hidle]
    simp [editorReadKey, readEscape, read1_byte, h1, ESC]
  · rw [editorReadKey_idle idle _ hidle]
    simp [editorReadKey, readEscape, read1_byte, h1, ESC, hd.1, hd.2]

theorem readKey_truncated_witness :
    editorReadKey (idlePolls ++ ReadResult.byte 27 :: pausedInput)
      = KeyResult.key 27 pausedInput.tail ∧
    editorReadKey (idlePolls ++ ReadResult.byte 27 :: ReadResult.byte 91 :: pausedInput)
      = KeyResult.key 27 pausedInput.tail ∧
    editorReadKey (idlePolls ++ ReadResult.byte 27 :: ReadResult.byte 91 :: ReadResult.byte 53
        :: pausedInput) = KeyResult.key 27 pausedInput.tail ∧
    (27 : Int) = ESC ∧ (27 : Int) ∉ namedKeys :=
  readKey_truncated idlePolls pausedInput 91 53 (by decide) (by decide) (by decide)

/-! ## Scroll idempotence and cursor boundaries -/

theorem editorConfig_eq_of_fields (A B : editorConfig)
    (h1 : A.cx = B.cx) (h2 : A.cy = B.cy) (h3 : A.rowoff = B.rowoff) (h4 : A.coloff = B.coloff)
    (h5 : A.screenrows = B.screenrows) (h6 : A.screencols = B.screencols)
    (h7 : A.numrows = B.numrows) (h8 : A.row = B.row) : A = B := by
  cases A
  cases B
  simp_all

/-- C7. Scroll recomputation is idempotent: for every editor state, `editorScroll` applied twice
gives the same state, hence the same `rowoff` and `coloff`, as `editorScroll` applied once. -/
theorem editorScroll_idempotent (E : editorConfig) :
    editorScroll (editorScroll E) = editorScroll E ∧
    (editorScroll (editorScroll E)).rowoff = (editorScroll E).rowoff ∧
    (editorScroll (editorScroll E)).coloff = (editorScroll E).coloff := by
  obtain ⟨c1, c2, c3, c4, c5, c6⟩ := editorScroll_cursor (editorScroll E)
  obtain ⟨d1, d2, d3, d4, d5, d6⟩ := editorScroll_cursor E
  have hr : (editorScroll (editorScroll E)).rowoff = (editorScroll E).rowoff := by
    rw [editorScroll_rowoff (editorScroll E), d2, d3, editorScroll_rowoff E]
    split_ifs <;> omega
  have hc : (editorScroll (editorScroll E)).coloff = (editorScroll E).coloff := by
    rw [editorScroll_coloff (editorScroll E), d1, d4, editorScroll_coloff E]
    split_ifs <;> omega
  exact ⟨editorConfig_eq_of_fields _ _ c1 c2 hr hc c3 c4 c5 c6, hr, hc⟩

/-- C8. Boundary no-ops of `editorMoveCursor`: `ARROW_LEFT` with `cx == 0`, `ARROW_UP` with
`cy == 0` and `ARROW_DOWN` with `cy >= numrows` each leave the whole state unchanged. -/
theorem editorMoveCursor_boundary (E : editorConfig) :
    (E.cx = 0 → editorMoveCursor ARROW_LEFT E = E) ∧
    (E.cy = 0 → editorMoveCursor ARROW_UP E = E) ∧
    (E.cy ≥ E.numrows → editorMoveCursor ARROW_DOWN E = E) := by
  refine ⟨fun h => ?_, fun h => ?_, fun h => ?_⟩
  · simp [editorMoveCursor, h]
  · simp [editorMoveCursor, ARROW_UP, ARROW_LEFT, ARROW_RIGHT, h]
  · simp [editorMoveCursor, ARROW_DOWN, ARROW_UP, ARROW_LEFT, ARROW_RIGHT, not_lt.mpr h]

theorem editorMoveCursor_boundary_witness :
    editorMoveCursor ARROW_LEFT emptyState = emptyState ∧
    editorMoveCursor ARROW_UP emptyState = emptyState ∧
    editorMoveCursor ARROW_DOWN emptyState = emptyState :=
  ⟨(editorMoveCursor_boundary emptyState).1 (by decide),
   (editorMoveCursor_boundary emptyState).2.1 (by decide),
   (editorMoveCursor_boundary emptyState).2.2 (by decide)⟩

/-! ## Document loading -/

theorem abAppend_b (ab : abuf) (s : List Int) (len : Int) :
    (abAppend ab s len).b = ab.b ++ s.take len.toNat := rfl

theorem appendSpaces_b (n : Nat) (ab : abuf) :
    (appendSpaces n ab).b = ab.b ++ List.replicate n 32 := by
  induction n generalizing ab with
  | zero => simp [appendSpaces]
  | succ n ih =>
    rw [appendSpaces, ih, abAppend_b, List.replicate_succ]
    simp

theorem welcome_length : welcome.length = 28 := by decide

set_option maxRecDepth 20000 in
theorem emptyScreen_rows : (editorDrawRows emptyState ABUF_INIT).b = emptyScreenRows := by
  decide

/-- C10 (as stated, refuted). On a 24 by 80 screen the banner row of the empty document is not
the line built from `L = min(27, screencols)`: the banner text has 28 characters and all of them
are emitted. -/
theorem banner_length_is_not_27 :
    ¬ ((drawRowContent emptyState 8 ABUF_INIT).b = ABUF_INIT.b ++ bannerLine 27 80) := by
  decide

/-- C10 (amended). For an empty document (`numrows == 0`), `rowoff >= 0` and positive screen
dimensions, the content emitted for a screen row `0 <= y < screenrows` is the banner line when
`y == screenrows / 3` and the single marker `'~'` otherwise.  The banner line, with
`L = min(28, screencols)` and `p = (screencols - L) / 2`, is one `'~'` and `p - 1` spaces when
`p > 0` (nothing when `p == 0`), then the first `L` characters of
`"Kilo editor -- version 0.0.1"`, which has 28 characters.  With 24 rows by 80 columns the banner
is on row 8 and reads `'~'`, 25 spaces and the whole text, and the rows of the frame are as the
specification describes. -/
theorem drawRowContent_empty_document (E : editorConfig) (y : Int) (ab : abuf)
    (hn : E.numrows = 0) (hoff : 0 ≤ E.rowoff) (hr : 0 < E.screenrows) (_hc : 0 < E.screencols)
    (hy0 : 0 ≤ y) (_hy1 : y < E.screenrows) :
    (y = E.screenrows / 3 → (drawRowContent E y ab).b = ab.b ++ bannerLine 28 E.screencols) ∧
    (y ≠ E.screenrows / 3 → (drawRowContent E y ab).b = ab.b ++ [126]) ∧
    welcome.length = 28 ∧
    (E.screenrows = 24 → E.screencols = 80 →
      (drawRowContent E 8 ab).b = ab.b ++ (126 :: List.replicate 25 32 ++ welcome)) ∧
    (editorDrawRows emptyState ABUF_INIT).b = emptyScreenRows := by
  have hdiv : Int.tdiv E.screenrows 3 = E.screenrows / 3 :=
    Int.tdiv_eq_ediv (le_of_lt hr) (by decide)
  have hbanner : ∀ z : Int, 0 ≤ z → z = E.screenrows / 3 →
      (drawRowContent E z ab).b = ab.b ++ bannerLine 28 E.screencols := by
    intro z hz0 hz
    have hfile : z + E.rowoff ≥ E.numrows := by rw [hn]; omega
    have hcond : E.numrows = 0 ∧ z = Int.tdiv E.screenrows 3 := ⟨hn, by rw [hdiv]; exact hz⟩
    have hmin : (if (28 : Int) > E.screencols then E.screencols else 28)
        = min (28 : Int) E.screencols := by
      split_ifs with h
      · exact (min_eq_right (le_of_lt h)).symm
      · exact (min_eq_left (not_lt.mp h)).symm
    have hle : min (28 : Int) E.screencols ≤ E.screencols := min_le_right _ _
    have hpad : Int.tdiv (E.screencols - min (28 : Int) E.screencols) 2
        = (E.screencols - min (28 : Int) E.screencols) / 2 :=
      Int.tdiv_eq_ediv (by omega) (by decide)
    have hnonneg : 0 ≤ (E.screencols - min (28 : Int) E.screencols) / 2 :=
      Int.ediv_nonneg (by omega) (by decide)
    simp only [drawRowContent, if_pos hfile, if_pos hcond, welcome_length, Nat.cast_ofNat, hmin,
      hpad, abAppend_b, appendSpaces_b, bannerLine]
    by_cases hp : (E.screencols - min (28 : Int) E.screencols) / 2 = 0
    · simp [hp]
    · have hpos : (E.screencols - min (28 : Int) E.screencols) / 2 > 0 := by omega
      simp [hp, hpos, abAppend_b]
  refine ⟨hbanner y hy0, ?_, welcome_length, ?_, emptyScreen_rows⟩
  · intro hne
    have hfile : y + E.rowoff ≥ E.numrows := by rw [hn]; omega
    have hcond : ¬ (E.numrows = 0 ∧ y = Int.tdiv E.screenrows 3) := by
      rw [hdiv]
      exact fun h => hne h.2
    simp only [drawRowContent, if_pos hfile, if_neg hcond, abAppend_b]
    rfl
  · intro h24 h80
    have h := hbanner 8 (by decide) (by rw [h24]; decide)
    have hb : bannerLine 28 80 = 126 :: List.replicate 25 32 ++ welcome := by decide
    rw [h, h80, hb]

theorem drawRowContent_empty_document_witness :
    ((8 : Int) = emptyState.screenrows / 3 →
      (drawRowContent emptyState 8 ABUF_INIT).b
        = ABUF_INIT.b ++ bannerLine 28 emptyState.screencols) ∧
    ((8 : Int) ≠ emptyState.screenrows / 3 →
      (drawRowContent emptyState 8 ABUF_INIT).b = ABUF_INIT.b ++ [126]) ∧
    welcome.length = 28 ∧
    (emptyState.screenrows = 24 → emptyState.screencols = 80 →
      (drawRowContent emptyState 8 ABUF_INIT).b
        = ABUF_INIT.b ++ (126 :: List.replicate 25 32 ++ welcome)) ∧
    (editorDrawRows emptyState ABUF_INIT).b = emptyScreenRows :=
  drawRowContent_empty_document emptyState 8 ABUF_INIT (by decide) (by decide) (by decide)
    (by decide) (by decide) (by decide)


/-! ## Rendering of document rows and row framing -/

theorem drawRowContent_b (E : editorConfig) (y : Int) (ab : abuf) :
    (drawRowContent E y ab).b = ab.b ++ rowContent E y := by
  unfold rowContent drawRowContent
  dsimp only
  split_ifs <;> simp [abAppend_b, appendSpaces_b, ABUF_INIT]

theorem take_drop_text (chars : List Int) (s c k : Nat) (hk : k ≤ s - c) :
    (chars.drop c).take k = ((chars.take s).drop c).take k := by
  rw [List.drop_take, List.take_take, min_eq_left hk]

theorem rowLen_toNat (size coloff cols : Int) :
    (if (if size - coloff < 0 then 0 else size - coloff) > cols then cols
      else (if size - coloff < 0 then 0 else size - coloff)).toNat
      = (min (size - coloff) cols).toNat := by
  split_ifs <;> omega

/-- C11. Document-row rendering: for a screen row `y` whose file row `i = rowoff + y` is a line
of the document (`i < numrows`, row `r`), with `coloff >= 0`, the content emitted is the part of
the line's text that starts at index `coloff` and has length `min(size - coloff, screencols)`
(nothing when that is not positive); it is empty when `coloff >= size`; and its length is
`min(size - coloff, screencols)` when the row's text has `size` characters and that minimum is not
negative.  Nothing else (no marker, no banner) is emitted for the row. -/
theorem drawRowContent_document_row (E : editorConfig) (y : Int) (ab : abuf) (i : Nat) (r : erow)
    (hfile : y + E.rowoff = (i : Int)) (hlt : (i : Int) < E.numrows)
    (hrow : E.row[i]? = some r) (hcol : 0 ≤ E.coloff) :
    (drawRowContent E y ab).b
      = ab.b ++ (r.text.drop E.coloff.toNat).take (min (r.size - E.coloff) E.screencols).toNat ∧
    (E.coloff ≥ r.size → (drawRowContent E y ab).b = ab.b) ∧
    (0 ≤ r.size → r.size ≤ (r.chars.length : Int) → 0 ≤ min (r.size - E.coloff) E.screencols →
      (((drawRowContent E y ab).b.length : Int)
        = (ab.b.length : Int) + min (r.size - E.coloff) E.screencols)) := by
  have hbranch : ¬ (y + E.rowoff ≥ E.numrows) := by rw [hfile]; omega
  have hget : E.row.getD (y + E.rowoff).toNat default = r := by
    rw [hfile, Int.toNat_ofNat, List.getD_eq_getElem?_getD, hrow]
    rfl
  have hk : (min (r.size - E.coloff) E.screencols).toNat ≤ r.size.toNat - E.coloff.toNat := by
    have := min_le_left (r.size - E.coloff) E.screencols
    omega
  have hmain : (drawRowContent E y ab).b
      = ab.b ++ (r.text.drop E.coloff.toNat).take (min (r.size - E.coloff) E.screencols).toNat := by
    simp only [drawRowContent, if_neg hbranch, hget, abAppend_b, rowLen_toNat, erow.text]
    rw [take_drop_text r.chars r.size.toNat E.coloff.toNat _ hk]
  refine ⟨hmain, ?_, ?_⟩
  · intro hge
    have h0 : (min (r.size - E.coloff) E.screencols).toNat = 0 := by
      have := min_le_left (r.size - E.coloff) E.screencols
      omega
    rw [hmain, h0]
    simp
  · intro hs hlen hmin
    rw [hmain, List.length_append, List.length_take, List.length_drop, erow.text,
      List.length_take]
    have h1 := min_le_left (r.size - E.coloff) E.screencols
    push_cast
    omega

theorem drawRowContent_document_row_witness :
    (drawRowContent narrowTwo 1 ABUF_INIT).b
      = ABUF_INIT.b ++ ((storedRow [100, 101, 10]).text.drop narrowTwo.coloff.toNat).take
          (min ((storedRow [100, 101, 10]).size - narrowTwo.coloff) narrowTwo.screencols).toNat ∧
    (narrowTwo.coloff ≥ (storedRow [100, 101, 10]).size →
      (drawRowContent narrowTwo 1 ABUF_INIT).b = ABUF_INIT.b) ∧
    (0 ≤ (storedRow [100, 101, 10]).size →
      (storedRow [100, 101, 10]).size ≤ ((storedRow [100, 101, 10]).chars.length : Int) →
      0 ≤ min ((storedRow [100, 101, 10]).size - narrowTwo.coloff) narrowTwo.screencols →
      (((drawRowContent narrowTwo 1 ABUF_INIT).b.length : Int)
        = (ABUF_INIT.b.length : Int)
          + min ((storedRow [100, 101, 10]).size - narrowTwo.coloff) narrowTwo.screencols)) :=
  drawRowContent_document_row narrowTwo 1 ABUF_INIT 1 (storedRow [100, 101, 10])
    (by decide) (by decide) (by decide) (by decide)


theorem drawRow_b (E : editorConfig) (y : Int) (ab : abuf) :
    (drawRow E y ab).b = ab.b ++ (rowContent E y ++ eraseLine
      ++ (if y < E.screenrows - 1 then rowSeparator else [])) := by
  unfold drawRow
  dsimp only
  split_ifs <;> simp [abAppend_b, drawRowContent_b, eraseLine, rowSeparator]

theorem drawRowsFrom_b (E : editorConfig) (n : Nat) (y : Int) (ab : abuf) :
    (drawRowsFrom E n y ab).b = ab.b ++ ((List.range n).map (fun j : Nat =>
      rowContent E (y + (j : Int)) ++ eraseLine
        ++ (if y + (j : Int) < E.screenrows - 1 then rowSeparator else []))).flatten := by
  induction n generalizing y ab with
  | zero => simp [drawRowsFrom]
  | succ n ih =>
    rw [drawRowsFrom, ih, drawRow_b, List.range_succ_eq_map, List.map_cons, List.flatten_cons,
      List.map_map, List.append_assoc]
    congr 2
    · simp
    · congr 1
      apply List.map_congr_left
      intro j _
      have hj : y + 1 + (j : Int) = y + ((j + 1 : Nat) : Int) := by push_cast; ring
      simp only [Function.comp, hj]

theorem editorDrawRows_b (E : editorConfig) (ab : abuf) :
    (editorDrawRows E ab).b = ab.b ++ framedRows E := by
  rw [editorDrawRows, drawRowsFrom_b, framedRows]
  congr 2
  apply List.map_congr_left
  intro j hj
  have hlt : j < E.screenrows.toNat := List.mem_range.mp hj
  have hiff : ((0 : Int) + (j : Int) < E.screenrows - 1) ↔ ¬ (j + 1 = E.screenrows.toNat) := by
    omega
  simp only [framedRow, Int.zero_add]
  by_cases h : j + 1 = E.screenrows.toNat
  · rw [if_pos h, if_neg (fun hc => (hiff.mp (by simpa using hc)) h)]
  · rw [if_neg h, if_pos (by simpa using hiff.mpr h)]

theorem framedRows_last (E : editorConfig) (m : Nat) (h : E.screenrows.toNat = m + 1) :
    framedRows E = ((List.range m).map (framedRow E (m + 1))).flatten
      ++ rowContent E (m : Int) ++ eraseLine := by
  rw [framedRows, h, List.range_succ, List.map_append, List.flatten_append]
  simp [framedRow, List.append_assoc]

theorem separator_count (m : Nat) :
    ((List.range (m + 1)).filter (fun y => decide (y + 1 ≠ m + 1))).length = m := by
  rw [List.range_succ, List.filter_append]
  have h1 : (List.range m).filter (fun y => decide (y + 1 ≠ m + 1)) = List.range m := by
    rw [List.filter_eq_self]
    intro y hy
    have := List.mem_range.mp hy
    simp
    omega
  rw [h1]
  simp

/-- C12. Row framing: with `screenrows >= 1`, what `editorDrawRows` appends is the concatenation,
for `y = 0 .. screenrows - 1` in order, of the content of row `y`, then `ESC [ K`, then `"\r\n"`
unless `y` is the last row.  There are `screenrows` framed rows, hence `screenrows` erase
sequences, and `screenrows - 1` of them carry a separator; the output ends with the erase
sequence of the last row and not with a separator. -/
theorem editorDrawRows_framing (E : editorConfig) (ab : abuf) (h : 1 ≤ E.screenrows) :
    (editorDrawRows E ab).b = ab.b ++ framedRows E ∧
    framedRows E
      = ((List.range E.screenrows.toNat).map (fun y : Nat => rowContent E (y : Int) ++ eraseLine
          ++ (if y + 1 = E.screenrows.toNat then [] else rowSeparator))).flatten ∧
    (((List.range E.screenrows.toNat).map (framedRow E E.screenrows.toNat)).length : Int)
      = E.screenrows ∧
    ((((List.range E.screenrows.toNat).filter
        (fun y => decide (y + 1 ≠ E.screenrows.toNat))).length : Nat) : Int)
      = E.screenrows - 1 ∧
    eraseLine <:+ (editorDrawRows E ab).b ∧
    ¬ (rowSeparator <:+ (editorDrawRows E ab).b) := by
  obtain ⟨m, hm⟩ : ∃ m : Nat, E.screenrows.toNat = m + 1 := ⟨E.screenrows.toNat - 1, by omega⟩
  have hout := editorDrawRows_b E ab
  have hsuffix : eraseLine <:+ (editorDrawRows E ab).b := by
    rw [hout, framedRows_last E m hm, ← List.append_assoc, ← List.append_assoc]
    exact List.suffix_append _ _
  refine ⟨hout, rfl, ?_, ?_, hsuffix, ?_⟩
  · rw [List.length_map, List.length_range]
    omega
  · rw [hm, separator_count]
    omega
  · intro hsep
    obtain ⟨t1, ht1⟩ := hsuffix
    obtain ⟨t2, ht2⟩ := hsep
    have hlast1 : (editorDrawRows E ab).b.getLast? = some 75 := by
      rw [← ht1]
      simp [eraseLine]
    have hlast2 : (editorDrawRows E ab).b.getLast? = some 10 := by
      rw [← ht2]
      simp [rowSeparator]
    rw [hlast1] at hlast2
    exact absurd hlast2 (by decide)

theorem editorDrawRows_framing_witness :
    (editorDrawRows emptyState ABUF_INIT).b = ABUF_INIT.b ++ framedRows emptyState ∧
    framedRows emptyState
      = ((List.range emptyState.screenrows.toNat).map (fun y : Nat =>
          rowContent emptyState (y : Int) ++ eraseLine
          ++ (if y + 1 = emptyState.screenrows.toNat then [] else rowSeparator))).flatten ∧
    (((List.range emptyState.screenrows.toNat).map
        (framedRow emptyState emptyState.screenrows.toNat)).length : Int)
      = emptyState.screenrows ∧
    ((((List.range emptyState.screenrows.toNat).filter
        (fun y => decide (y + 1 ≠ emptyState.screenrows.toNat))).length : Nat) : Int)
      = emptyState.screenrows - 1 ∧
    eraseLine <:+ (editorDrawRows emptyState ABUF_INIT).b ∧
    ¬ (rowSeparator <:+ (editorDrawRows emptyState ABUF_INIT).b) :=
  editorDrawRows_framing emptyState ABUF_INIT (by decide)


/-! ## Screen refresh -/

theorem decimal_length (n : Int) (hlo : -2147483648 ≤ n) (hhi : n ≤ 2147483647) :
    (decimal n).length ≤ 11 := by
  have hdig : ∀ m : Nat, m < 10 ^ 10 → (Nat.toDigits 10 m).length ≤ 10 := fun m hm =>
    Nat.toDigitsCore_length 10 (by decide) (m + 1) m 10 hm (by decide)
  unfold decimal
  split_ifs with hneg
  · have h1 := hdig n.natAbs (by omega)
    simp only [List.length_cons, List.length_map]
    omega
  · have h1 := hdig n.toNat (by omega)
    simp only [List.length_map]
    omega

theorem cursorBuf_eq (r c : Int) (hr : -2147483648 ≤ r ∧ r ≤ 2147483647)
    (hc : -2147483648 ≤ c ∧ c ≤ 2147483647) :
    cursorBuf r c = [27, 91] ++ decimal r ++ [59] ++ decimal c ++ [72] := by
  have h1 := decimal_length r hr.1 hr.2
  have h2 := decimal_length c hc.1 hc.2
  rw [cursorBuf, List.take_of_length_le]
  simp only [List.length_append, List.length_cons, List.length_nil]
  omega

theorem digitChar_code (m : Nat) (h : m < 10) : ((Nat.digitChar m).toNat : Int) = 48 + (m : Int) := by
  interval_cases m <;> rfl

theorem digitsValue_concat (X : List Int) (d : Int) :
    digitsValue (X ++ [d]) = 10 * digitsValue X + (d - 48) := by
  simp [digitsValue, List.foldl_append]

theorem toDigitsCore_decimal (fuel : Nat) :
    ∀ (n : Nat) (ds : List Char), n < fuel →
      ∃ X : List Int,
        (Nat.toDigitsCore 10 fuel n ds).map (fun ch => (ch.toNat : Int))
          = X ++ ds.map (fun ch => (ch.toNat : Int)) ∧
        X ≠ [] ∧ (∀ d ∈ X, 48 ≤ d ∧ d ≤ 57) ∧ digitsValue X = (n : Int) ∧
        (0 < n → X.head? ≠ some 48) ∧ (n = 0 → X = [48]) := by
  induction fuel with
  | zero => intro n ds h; omega
  | succ fuel ih =>
    intro n ds h
    have hmod : n % 10 < 10 := Nat.mod_lt n (by decide)
    have hcode := digitChar_code (n % 10) hmod
    by_cases hz : n / 10 = 0
    · have hn : n % 10 = n := by omega
      rw [hn] at hcode
      refine ⟨[48 + (n : Int)], ?_, by simp, ?_, ?_, ?_, ?_⟩
      · simp only [Nat.toDigitsCore, if_pos hz, List.map_cons, hn, hcode]
        rfl
      · intro d hd
        rw [List.mem_singleton.mp hd]
        omega
      · simp [digitsValue]
      · intro hpos h48
        simp only [List.head?_cons, Option.some.injEq] at h48
        omega
      · intro h0
        rw [h0]
        rfl
    · obtain ⟨X, hX, hne, hdig, hval, hlead, -⟩ := ih (n / 10) (Nat.digitChar (n % 10) :: ds)
        (by omega)
      refine ⟨X ++ [48 + ((n % 10 : Nat) : Int)], ?_, by simp, ?_, ?_, ?_, ?_⟩
      · simp only [Nat.toDigitsCore, if_neg hz, hX, List.map_cons, hcode, List.append_assoc,
          List.singleton_append]
      · intro d hd
        rcases List.mem_append.mp hd with hd | hd
        · exact hdig d hd
        · rw [List.mem_singleton.mp hd]
          omega
      · rw [digitsValue_concat, hval]
        push_cast
        omega
      · intro _
        rw [List.head?_append_of_ne_nil _ hne]
        exact hlead (by omega)
      · intro h0
        omega

theorem toDigits_canonical (n : Nat) :
    canonicalDigits ((Nat.toDigits 10 n).map (fun ch => (ch.toNat : Int))) (n : Int) := by
  obtain ⟨X, hX, hne, hdig, hval, hlead, hzero⟩ := toDigitsCore_decimal (n + 1) n [] (by omega)
  have hX2 : (Nat.toDigits 10 n).map (fun ch => (ch.toNat : Int)) = X := by
    rw [Nat.toDigits, hX]
    simp
  rw [hX2]
  refine ⟨hne, hdig, ?_, hval⟩
  intro h48
  by_cases h0 : n = 0
  · exact hzero h0
  · exact absurd h48 (hlead (by omega))

theorem decimal_isDecimal (n : Int) : isDecimal (decimal n) n := by
  constructor
  · intro h0
    have h := toDigits_canonical n.toNat
    rw [Int.toNat_of_nonneg h0] at h
    simpa [decimal, not_lt.mpr h0] using h
  · intro hneg
    have h := toDigits_canonical n.natAbs
    have habs : (n.natAbs : Int) = -n := by omega
    rw [habs] at h
    exact ⟨_, by simp [decimal, hneg], h⟩

theorem editorScroll_cursorRow (E : editorConfig) :
    (1 ≤ E.screenrows → 1 ≤ (editorScroll E).cy - (editorScroll E).rowoff + 1 ∧
      (editorScroll E).cy - (editorScroll E).rowoff + 1 ≤ E.screenrows) ∧
    (E.screenrows ≤ 0 → (editorScroll E).cy - (editorScroll E).rowoff + 1 = E.screenrows) := by
  rw [editorScroll_rowoff, (editorScroll_cursor E).2.1]
  constructor <;> intro h <;> split_ifs <;> omega

theorem editorScroll_cursorCol (E : editorConfig) :
    (1 ≤ E.screencols → 1 ≤ (editorScroll E).cx - (editorScroll E).coloff + 1 ∧
      (editorScroll E).cx - (editorScroll E).coloff + 1 ≤ E.screencols) ∧
    (E.screencols ≤ 0 → (editorScroll E).cx - (editorScroll E).coloff + 1 = E.screencols) := by
  rw [editorScroll_coloff, (editorScroll_cursor E).1]
  constructor <;> intro h <;> split_ifs <;> omega

theorem editorRefreshScreen_b (E : editorConfig) :
    (editorRefreshScreen E).E = editorScroll E ∧
    (editorRefreshScreen E).buf
      = cursorBuf ((editorScroll E).cy - (editorScroll E).rowoff + 1)
          ((editorScroll E).cx - (editorScroll E).coloff + 1) ∧
    (editorRefreshScreen E).ab.b
      = hideCursor ++ cursorHome ++ (editorDrawRows (editorScroll E) ABUF_INIT).b
          ++ (editorRefreshScreen E).buf ++ showCursor ∧
    (editorRefreshScreen E).writes
      = [(editorRefreshScreen E).ab.b.take (editorRefreshScreen E).ab.len.toNat] := by
  refine ⟨rfl, rfl, ?_, rfl⟩
  simp only [editorRefreshScreen, abAppend_b, editorDrawRows_b, ABUF_INIT, Int.toNat_ofNat,
    List.take_length, List.nil_append]
  simp [hideCursor, cursorHome, showCursor]


theorem abAppend_exact (ab : abuf) (s : List Int) (len : Int) (h : ab.exact)
    (h0 : 0 ≤ len) (h1 : len.toNat ≤ s.length) : (abAppend ab s len).exact := by
  unfold abuf.exact at h ⊢
  simp only [abAppend, List.length_append, List.length_take, min_eq_left h1, h]
  push_cast
  omega

theorem appendSpaces_exact (n : Nat) (ab : abuf) (h : ab.exact) : (appendSpaces n ab).exact := by
  induction n generalizing ab with
  | zero => exact h
  | succ n ih => exact ih _ (abAppend_exact ab [32] 1 h (by decide) (by decide))

theorem welcomelen_bounds (cols : Int) (h : 0 ≤ cols) :
    0 ≤ (if (welcome.length : Int) > cols then cols else (welcome.length : Int)) ∧
    (if (welcome.length : Int) > cols then cols else (welcome.length : Int)).toNat
      ≤ welcome.length := by
  split_ifs <;> omega

theorem drawRowContent_exact (E : editorConfig) (y : Int) (ab : abuf) (h : ab.exact)
    (hy : 0 ≤ y + E.rowoff) (hcol : 0 ≤ E.coloff) (hsc : 0 ≤ E.screencols)
    (hnum : E.numrows ≤ (E.row.length : Int))
    (hrows : ∀ r ∈ E.row, r.size ≤ (r.chars.length : Int)) :
    (drawRowContent E y ab).exact := by
  by_cases h1 : y + E.rowoff ≥ E.numrows
  · by_cases h2 : E.numrows = 0 ∧ y = Int.tdiv E.screenrows 3
    · obtain ⟨hw0, hw1⟩ := welcomelen_bounds E.screencols hsc
      simp only [drawRowContent, if_pos h1, if_pos h2]
      refine abAppend_exact _ _ _ (appendSpaces_exact _ _ ?_) hw0 hw1
      split_ifs <;> first
        | exact h
        | exact abAppend_exact _ _ _ h (by decide) (by decide)
    · simp only [drawRowContent, if_pos h1, if_neg h2]
      exact abAppend_exact _ _ _ h (by decide) (by decide)
  · have hidx : (y + E.rowoff).toNat < E.row.length := by omega
    have hmem : E.row.getD (y + E.rowoff).toNat default ∈ E.row := by
      rw [List.getD_eq_getElem _ _ hidx]
      exact List.getElem_mem _
    have hsize := hrows _ hmem
    simp only [drawRowContent, if_neg h1]
    apply abAppend_exact _ _ _ h
    · split_ifs <;> omega
    · rw [List.length_drop]
      split_ifs <;> omega

theorem drawRow_exact (E : editorConfig) (y : Int) (ab : abuf) (h : ab.exact)
    (hy : 0 ≤ y + E.rowoff) (hcol : 0 ≤ E.coloff) (hsc : 0 ≤ E.screencols)
    (hnum : E.numrows ≤ (E.row.length : Int))
    (hrows : ∀ r ∈ E.row, r.size ≤ (r.chars.length : Int)) :
    (drawRow E y ab).exact := by
  have h1 := drawRowContent_exact E y ab h hy hcol hsc hnum hrows
  have h2 := abAppend_exact _ [27, 91, 75] 3 h1 (by decide) (by decide)
  unfold drawRow
  dsimp only
  split_ifs
  · exact abAppend_exact _ [13, 10] 2 h2 (by decide) (by decide)
  · exact h2

theorem drawRowsFrom_exact (E : editorConfig) (n : Nat) (y : Int) (ab : abuf) (h : ab.exact)
    (hy : 0 ≤ y + E.rowoff) (hcol : 0 ≤ E.coloff) (hsc : 0 ≤ E.screencols)
    (hnum : E.numrows ≤ (E.row.length : Int))
    (hrows : ∀ r ∈ E.row, r.size ≤ (r.chars.length : Int)) :
    (drawRowsFrom E n y ab).exact := by
  induction n generalizing y ab with
  | zero => exact h
  | succ n ih =>
    exact ih (y + 1) _ (drawRow_exact E y ab h hy hcol hsc hnum hrows) (by omega)

theorem editorScroll_wellFormed (E : editorConfig) (h : wellFormed E) :
    0 ≤ (editorScroll E).rowoff ∧ 0 ≤ (editorScroll E).coloff := by
  obtain ⟨hx, hy, hro, hco, -, -, -⟩ := h
  rw [editorScroll_rowoff, editorScroll_coloff]
  constructor <;> split_ifs <;> omega

theorem editorRefreshScreen_exact (E : editorConfig) (h : wellFormed E) :
    (editorRefreshScreen E).ab.exact := by
  obtain ⟨hro, hco⟩ := editorScroll_wellFormed E h
  obtain ⟨-, -, -, -, hsc, hnum, hrows⟩ := h
  obtain ⟨-, -, -, d4, d5, d6⟩ := editorScroll_cursor E
  have h0 : ABUF_INIT.exact := rfl
  have h1 := abAppend_exact _ hideCursor 6 h0 (by decide) (by decide)
  have h2 := abAppend_exact _ cursorHome 3 h1 (by decide) (by decide)
  have h3 := drawRowsFrom_exact (editorScroll E) (editorScroll E).screenrows.toNat 0 _ h2
    (by omega) hco (by rw [d4]; exact hsc) (by rw [d5, d6]; exact hnum)
    (by rw [d6]; exact hrows)
  have h4 := abAppend_exact _ (cursorBuf ((editorScroll E).cy - (editorScroll E).rowoff + 1)
    ((editorScroll E).cx - (editorScroll E).coloff + 1))
    ((cursorBuf ((editorScroll E).cy - (editorScroll E).rowoff + 1)
      ((editorScroll E).cx - (editorScroll E).coloff + 1)).length : Int) h3
    (by omega) (by rw [Int.toNat_ofNat])
  exact abAppend_exact _ showCursor 6 h4 (by decide) (by decide)


set_option maxRecDepth 20000 in
theorem sampleFrame_writes : (editorRefreshScreen sampleFrameState).writes = [sampleFrame] := by
  decide

/-- C13. Frame envelope: `editorRefreshScreen` first applies `editorScroll`; the frame it
assembles is, byte for byte, `ESC [ ? 2 5 l` (hide cursor), `ESC [ H` (cursor home), the output
of `editorDrawRows`, then `ESC [`, the decimal notation of `r = cy - rowoff + 1`, `;`, the decimal
notation of `c = cx - coloff + 1`, `H`, and `ESC [ ? 2 5 h` (show cursor), with the offsets taken
after the scroll.  There is exactly one `write`, of the first `ab.len` bytes of the buffer, which
is the whole frame in every well-formed state.  On the sample state the write is the expected
byte string.  The screen dimensions are C `int` values. -/
theorem editorRefreshScreen_frame (E : editorConfig)
    (hsr : -2147483648 ≤ E.screenrows ∧ E.screenrows ≤ 2147483647)
    (hsc : -2147483648 ≤ E.screencols ∧ E.screencols ≤ 2147483647) :
    (editorRefreshScreen E).E = editorScroll E ∧
    (∃ R C : List Int,
      isDecimal R ((editorScroll E).cy - (editorScroll E).rowoff + 1) ∧
      isDecimal C ((editorScroll E).cx - (editorScroll E).coloff + 1) ∧
      (editorRefreshScreen E).ab.b
        = [27, 91, 63, 50, 53, 108] ++ [27, 91, 72]
            ++ (editorDrawRows (editorScroll E) ABUF_INIT).b
            ++ ([27, 91] ++ R ++ [59] ++ C ++ [72])
            ++ [27, 91, 63, 50, 53, 104]) ∧
    (editorRefreshScreen E).writes
      = [(editorRefreshScreen E).ab.b.take (editorRefreshScreen E).ab.len.toNat] ∧
    (wellFormed E → (editorRefreshScreen E).writes = [(editorRefreshScreen E).ab.b]) ∧
    (editorRefreshScreen sampleFrameState).writes = [sampleFrame] := by
  obtain ⟨h1, h2, h3, h4⟩ := editorRefreshScreen_b E
  obtain ⟨r1, r2⟩ := editorScroll_cursorRow E
  obtain ⟨c1, c2⟩ := editorScroll_cursorCol E
  have hr : -2147483648 ≤ (editorScroll E).cy - (editorScroll E).rowoff + 1 ∧
      (editorScroll E).cy - (editorScroll E).rowoff + 1 ≤ 2147483647 := by
    by_cases h : 1 ≤ E.screenrows
    · have := r1 h
      omega
    · have := r2 (by omega)
      omega
  have hc : -2147483648 ≤ (editorScroll E).cx - (editorScroll E).coloff + 1 ∧
      (editorScroll E).cx - (editorScroll E).coloff + 1 ≤ 2147483647 := by
    by_cases h : 1 ≤ E.screencols
    · have := c1 h
      omega
    · have := c2 (by omega)
      omega
  refine ⟨h1, ⟨_, _, decimal_isDecimal _, decimal_isDecimal _, ?_⟩, h4, ?_, sampleFrame_writes⟩
  · rw [h3, h2, cursorBuf_eq _ _ hr hc]
    rfl
  · intro hwf
    have hex := editorRefreshScreen_exact E hwf
    unfold abuf.exact at hex
    rw [h4, hex, Int.toNat_ofNat, List.take_length]

theorem editorRefreshScreen_frame_witness :
    (editorRefreshScreen sampleFrameState).E = editorScroll sampleFrameState ∧
    (∃ R C : List Int,
      isDecimal R ((editorScroll sampleFrameState).cy - (editorScroll sampleFrameState).rowoff + 1) ∧
      isDecimal C ((editorScroll sampleFrameState).cx - (editorScroll sampleFrameState).coloff + 1) ∧
      (editorRefreshScreen sampleFrameState).ab.b
        = [27, 91, 63, 50, 53, 108] ++ [27, 91, 72]
            ++ (editorDrawRows (editorScroll sampleFrameState) ABUF_INIT).b
            ++ ([27, 91] ++ R ++ [59] ++ C ++ [72])
            ++ [27, 91, 63, 50, 53, 104]) ∧
    (editorRefreshScreen sampleFrameState).writes
      = [(editorRefreshScreen sampleFrameState).ab.b.take
          (editorRefreshScreen sampleFrameState).ab.len.toNat] ∧
    (wellFormed sampleFrameState →
      (editorRefreshScreen sampleFrameState).writes = [(editorRefreshScreen sampleFrameState).ab.b]) ∧
    (editorRefreshScreen sampleFrameState).writes = [sampleFrame] :=
  editorRefreshScreen_frame sampleFrameState (by decide) (by decide)

/-- C20. The cursor position emitted by `editorRefreshScreen` is on the screen: with positive
screen dimensions, the frame ends with the content of `buf` and show-cursor, `buf` is the text of
`ESC [ r ; c H` for `r = cy - rowoff + 1` and `c = cx - coloff + 1` taken after the scroll, with
`1 <= r <= screenrows` and `1 <= c <= screencols`, and the cursor itself is where it was,
wherever that is. -/
theorem editorRefreshScreen_cursor_on_screen (E : editorConfig)
    (hr : 0 < E.screenrows) (hc : 0 < E.screencols) :
    (editorRefreshScreen E).ab.b
      = hideCursor ++ cursorHome ++ (editorDrawRows (editorScroll E) ABUF_INIT).b
          ++ (editorRefreshScreen E).buf ++ showCursor ∧
    (editorRefreshScreen E).buf
      = cursorBuf ((editorRefreshScreen E).E.cy - (editorRefreshScreen E).E.rowoff + 1)
          ((editorRefreshScreen E).E.cx - (editorRefreshScreen E).E.coloff + 1) ∧
    (1 ≤ (editorRefreshScreen E).E.cy - (editorRefreshScreen E).E.rowoff + 1 ∧
      (editorRefreshScreen E).E.cy - (editorRefreshScreen E).E.rowoff + 1 ≤ E.screenrows) ∧
    (1 ≤ (editorRefreshScreen E).E.cx - (editorRefreshScreen E).E.coloff + 1 ∧
      (editorRefreshScreen E).E.cx - (editorRefreshScreen E).E.coloff + 1 ≤ E.screencols) ∧
    (editorRefreshScreen E).E.cx = E.cx ∧ (editorRefreshScreen E).E.cy = E.cy ∧
    (editorRefreshScreen E).E.screenrows = E.screenrows ∧
    (editorRefreshScreen E).E.screencols = E.screencols := by
  obtain ⟨h1, h2, h3, -⟩ := editorRefreshScreen_b E
  obtain ⟨d1, d2, d3, d4, -, -⟩ := editorScroll_cursor E
  rw [h1]
  exact ⟨h3, h2, (editorScroll_cursorRow E).1 (by omega), (editorScroll_cursorCol E).1 (by omega),
    d1, d2, d3, d4⟩

theorem editorRefreshScreen_cursor_on_screen_witness :
    (editorRefreshScreen farState).ab.b
      = hideCursor ++ cursorHome ++ (editorDrawRows (editorScroll farState) ABUF_INIT).b
          ++ (editorRefreshScreen farState).buf ++ showCursor ∧
    (editorRefreshScreen farState).buf
      = cursorBuf ((editorRefreshScreen farState).E.cy - (editorRefreshScreen farState).E.rowoff + 1)
          ((editorRefreshScreen farState).E.cx - (editorRefreshScreen farState).E.coloff + 1) ∧
    (1 ≤ (editorRefreshScreen farState).E.cy - (editorRefreshScreen farState).E.rowoff + 1 ∧
      (editorRefreshScreen farState).E.cy - (editorRefreshScreen farState).E.rowoff + 1
        ≤ farState.screenrows) ∧
    (1 ≤ (editorRefreshScreen farState).E.cx - (editorRefreshScreen farState).E.coloff + 1 ∧
      (editorRefreshScreen farState).E.cx - (editorRefreshScreen farState).E.coloff + 1
        ≤ farState.screencols) ∧
    (editorRefreshScreen farState).E.cx = farState.cx ∧
    (editorRefreshScreen farState).E.cy = farState.cy ∧
    (editorRefreshScreen farState).E.screenrows = farState.screenrows ∧
    (editorRefreshScreen farState).E.screencols = farState.screencols :=
  editorRefreshScreen_cursor_on_screen farState (by decide) (by decide)

/-! ## Key dispatch -/

/-- C14. Home and End: for every state, the dispatch of `HOME_KEY` sets `cx` to 0 and the
dispatch of `END_KEY` sets `cx` to `screencols - 1`, whatever the rows hold, and nothing else
changes; the same through `editorProcessKeypress` on the bytes `ESC [ H` and `ESC [ F`. -/
theorem dispatch_home_end (E : editorConfig) (rest : List ReadResult) :
    dispatchKey HOME_KEY E = Dispatch.resume { E with cx := 0 } ∧
    dispatchKey END_KEY E = Dispatch.resume { E with cx := E.screencols - 1 } ∧
    editorProcessKeypress
        (ReadResult.byte 27 :: ReadResult.byte 91 :: ReadResult.byte 72 :: rest) E
      = Keypress.resume { E with cx := 0 } rest ∧
    editorProcessKeypress
        (ReadResult.byte 27 :: ReadResult.byte 91 :: ReadResult.byte 70 :: rest) E
      = Keypress.resume { E with cx := E.screencols - 1 } rest := by
  have hh : dispatchKey HOME_KEY E = Dispatch.resume { E with cx := 0 } := by
    simp [dispatchKey, HOME_KEY, CTRL_KEY_q]
  have he : dispatchKey END_KEY E = Dispatch.resume { E with cx := E.screencols - 1 } := by
    simp [dispatchKey, END_KEY, HOME_KEY, CTRL_KEY_q]
  refine ⟨hh, he, ?_, ?_⟩
  · have hk : editorReadKey
        (ReadResult.byte 27 :: ReadResult.byte 91 :: ReadResult.byte 72 :: rest)
        = KeyResult.key HOME_KEY rest := by
      simp [editorReadKey, readEscape, read1, ESC]
    simp only [editorProcessKeypress, hk, hh]
  · have hk : editorReadKey
        (ReadResult.byte 27 :: ReadResult.byte 91 :: ReadResult.byte 70 :: rest)
        = KeyResult.key END_KEY rest := by
      simp [editorReadKey, readEscape, read1, ESC]
    simp only [editorProcessKeypress, hk, he]

/-- C15. Ignored keys: for every state and every key other than Ctrl-Q (17), `HOME_KEY`,
`END_KEY`, `PAGE_UP`, `PAGE_DOWN` and the four arrows, the dispatch returns to the loop with the
state unchanged; this holds in particular for `DEL_KEY` and ESCAPE, and for an ordinary byte read
by `editorProcessKeypress`. -/
theorem dispatch_ignored_key (E : editorConfig) (c : Int) (rest : List ReadResult)
    (hq : c ≠ 17) (hk : c ∉ handledKeys) :
    dispatchKey c E = Dispatch.resume E ∧
    dispatchKey DEL_KEY E = Dispatch.resume E ∧
    dispatchKey ESC E = Dispatch.resume E ∧
    (c ≠ 27 → editorProcessKeypress (ReadResult.byte c :: rest) E = Keypress.resume E rest) := by
  have hgen : ∀ k : Int, k ≠ 17 → k ∉ handledKeys → dispatchKey k E = Dispatch.resume E := by
    intro k hk17 hkh
    simp only [handledKeys, List.mem_cons, List.mem_nil_iff, or_false, not_or] at hkh
    obtain ⟨k1, k2, k3, k4, k5, k6, k7, k8⟩ := hkh
    simp [dispatchKey, CTRL_KEY_q, hk17, k1, k2, k3, k4, k5, k6, k7, k8]
  refine ⟨hgen c hq hk, hgen DEL_KEY (by decide) (by decide), hgen ESC (by decide) (by decide), ?_⟩
  intro hesc
  simp [editorProcessKeypress, editorReadKey, ESC, hesc, hgen c hq hk]

theorem dispatch_ignored_key_witness :
    dispatchKey 97 farState = Dispatch.resume farState ∧
    dispatchKey DEL_KEY farState = Dispatch.resume farState ∧
    dispatchKey ESC farState = Dispatch.resume farState ∧
    ((97 : Int) ≠ 27 →
      editorProcessKeypress (ReadResult.byte 97 :: typedAhead) farState
        = Keypress.resume farState typedAhead) :=
  dispatch_ignored_key farState 97 typedAhead (by decide) (by decide)


theorem repeatMove_down_clamped (n : Nat) (E : editorConfig) (h : E.cy ≤ E.numrows) :
    repeatMove ARROW_DOWN n E = { E with cy := min (E.cy + (n : Int)) E.numrows } := by
  induction n generalizing E with
  | zero => simp [repeatMove, min_eq_left h]
  | succ n ih =>
    rw [repeatMove]
    by_cases hlt : E.cy < E.numrows
    · have hstep : editorMoveCursor ARROW_DOWN E = { E with cy := E.cy + 1 } := by
        simp [editorMoveCursor, ARROW_DOWN, ARROW_LEFT, ARROW_RIGHT, ARROW_UP, hlt]
      rw [hstep, ih _ (by simp only; omega)]
      simp only [Nat.cast_add, Nat.cast_one, editorConfig.mk.injEq, true_and, and_true]
      congr 1
      ring
    · have hstep : editorMoveCursor ARROW_DOWN E = E := by
        simp [editorMoveCursor, ARROW_DOWN, ARROW_LEFT, ARROW_RIGHT, ARROW_UP, hlt]
      rw [hstep, ih _ h]
      simp only [Nat.cast_add, Nat.cast_one, editorConfig.mk.injEq, true_and, and_true]
      rw [min_eq_right (by omega), min_eq_right (by omega)]

theorem repeatMove_up_clamped (n : Nat) (E : editorConfig) (h : 0 ≤ E.cy) :
    repeatMove ARROW_UP n E = { E with cy := max (E.cy - (n : Int)) 0 } := by
  induction n generalizing E with
  | zero => simp [repeatMove, max_eq_left h]
  | succ n ih =>
    rw [repeatMove]
    by_cases hz : E.cy = 0
    · have hstep : editorMoveCursor ARROW_UP E = E := by
        simp [editorMoveCursor, ARROW_LEFT, ARROW_RIGHT, ARROW_UP, hz]
      rw [hstep, ih _ h]
      simp only [Nat.cast_add, Nat.cast_one, editorConfig.mk.injEq, true_and, and_true]
      rw [max_eq_right (by omega), max_eq_right (by omega)]
    · have hstep : editorMoveCursor ARROW_UP E = { E with cy := E.cy - 1 } := by
        simp [editorMoveCursor, ARROW_LEFT, ARROW_RIGHT, ARROW_UP, hz]
      rw [hstep, ih _ (by simp only; omega)]
      simp only [Nat.cast_add, Nat.cast_one, editorConfig.mk.injEq, true_and, and_true]
      congr 1
      ring

theorem dispatch_page_down (E : editorConfig) (hs : 0 ≤ E.screenrows) (h : E.cy ≤ E.numrows) :
    dispatchKey PAGE_DOWN E = Dispatch.resume (pageDownJump E) := by
  have hm := repeatMove_down_clamped E.screenrows.toNat E h
  rw [Int.toNat_of_nonneg hs] at hm
  simp [dispatchKey, PAGE_DOWN, PAGE_UP, HOME_KEY, END_KEY, CTRL_KEY_q, not_lt.mpr hs, hm,
    pageDownJump]

theorem dispatch_page_up (E : editorConfig) (hs : 0 ≤ E.screenrows) (h : 0 ≤ E.cy) :
    dispatchKey PAGE_UP E = Dispatch.resume (pageUpJump E) := by
  have hm := repeatMove_up_clamped E.screenrows.toNat E h
  rw [Int.toNat_of_nonneg hs] at hm
  simp [dispatchKey, PAGE_UP, HOME_KEY, END_KEY, CTRL_KEY_q, not_lt.mpr hs, hm, pageUpJump]

/-- C17. Page movement equals a clamped jump: with `screenrows >= 0` and `0 <= cy <= numrows`,
the dispatch of `PAGE_DOWN` (`screenrows` repeated `ARROW_DOWN` moves) leaves
`cy == min(cy + screenrows, numrows)` and the dispatch of `PAGE_UP` (`screenrows` repeated
`ARROW_UP` moves) leaves `cy == max(cy - screenrows, 0)`; `cx`, the offsets, the dimensions and
the document are unchanged. -/
theorem page_keys_clamped_jump (E : editorConfig) (hs : 0 ≤ E.screenrows)
    (h0 : 0 ≤ E.cy) (h1 : E.cy ≤ E.numrows) :
    dispatchKey PAGE_DOWN E = Dispatch.resume (pageDownJump E) ∧
    dispatchKey PAGE_UP E = Dispatch.resume (pageUpJump E) ∧
    repeatMove ARROW_DOWN E.screenrows.toNat E = pageDownJump E ∧
    repeatMove ARROW_UP E.screenrows.toNat E = pageUpJump E ∧
    pageDownJump E = { E with cy := min (E.cy + E.screenrows) E.numrows } ∧
    pageUpJump E = { E with cy := max (E.cy - E.screenrows) 0 } := by
  have hd := repeatMove_down_clamped E.screenrows.toNat E h1
  have hu := repeatMove_up_clamped E.screenrows.toNat E h0
  rw [Int.toNat_of_nonneg hs] at hd hu
  exact ⟨dispatch_page_down E hs h1, dispatch_page_up E hs h0, hd, hu, rfl, rfl⟩

theorem page_keys_clamped_jump_witness :
    dispatchKey PAGE_DOWN loadedFifty = Dispatch.resume (pageDownJump loadedFifty) ∧
    dispatchKey PAGE_UP loadedFifty = Dispatch.resume (pageUpJump loadedFifty) ∧
    repeatMove ARROW_DOWN loadedFifty.screenrows.toNat loadedFifty = pageDownJump loadedFifty ∧
    repeatMove ARROW_UP loadedFifty.screenrows.toNat loadedFifty = pageUpJump loadedFifty ∧
    pageDownJump loadedFifty
      = { loadedFifty with
          cy := min (loadedFifty.cy + loadedFifty.screenrows) loadedFifty.numrows } ∧
    pageUpJump loadedFifty
      = { loadedFifty with cy := max (loadedFifty.cy - loadedFifty.screenrows) 0 } :=
  page_keys_clamped_jump loadedFifty (by rw [loadedFifty_fields.2.2.1]; decide)
    (by rw [loadedFifty_fields.1]) (by rw [loadedFifty_fields.1, loadedFifty_fields.2.2.2]; decide)

/-- C16. Unrecognised complete escape sequences resolve to ESCAPE and swallow their bytes.  On
input `ESC b1 b2 ...` where `b1` is not `'['` or `b2` is not a digit, and `ESC b1 b2` is not a
recognised three-byte sequence, `editorReadKey` returns 27 and has consumed exactly 3 bytes.  On
input `ESC [ b2 b3 ...` where `b2` is a digit and `b3` is not `'~'` or `b2` is not in the digit
table (0, 2, 9), it returns 27 and has consumed exactly 4 bytes. -/
theorem readKey_unrecognised (idle rest : List ReadResult) (b1 b2 b3 : Int)
    (hidle : ∀ r ∈ idle, r.isIdle = true) :
    ((b1 ≠ 91 ∨ ¬ (48 ≤ b2 ∧ b2 ≤ 57)) →
      (b1, b2) ∉ threeByteKeys.map (fun t => (t.1, t.2.1)) →
      editorReadKey (idle ++ ReadResult.byte 27 :: ReadResult.byte b1 :: ReadResult.byte b2
          :: rest) = KeyResult.key 27 rest ∧
      bytesConsumed
        (idle ++ ReadResult.byte 27 :: ReadResult.byte b1 :: ReadResult.byte b2 :: rest)
        (editorReadKey (idle ++ ReadResult.byte 27 :: ReadResult.byte b1 :: ReadResult.byte b2
          :: rest)) = 3) ∧
    ((48 ≤ b2 ∧ b2 ≤ 57) → ¬ (b3 = 126 ∧ b2 ∈ digitKeys.map Prod.fst) →
      editorReadKey (idle ++ ReadResult.byte 27 :: ReadResult.byte 91 :: ReadResult.byte b2
          :: ReadResult.byte b3 :: rest) = KeyResult.key 27 rest ∧
      bytesConsumed
        (idle ++ ReadResult.byte 27 :: ReadResult.byte 91 :: ReadResult.byte b2
          :: ReadResult.byte b3 :: rest)
        (editorReadKey (idle ++ ReadResult.byte 27 :: ReadResult.byte 91 :: ReadResult.byte b2
          :: ReadResult.byte b3 :: rest)) = 4) := by
  constructor
  · intro hshape hno
    have h : editorReadKey (idle ++ ReadResult.byte 27 :: ReadResult.byte b1
        :: ReadResult.byte b2 :: rest) = KeyResult.key 27 rest := by
      have hno2 : ¬ (b1 = 91 ∧ b2 = 65) ∧ ¬ (b1 = 91 ∧ b2 = 66) ∧ ¬ (b1 = 91 ∧ b2 = 67) ∧
          ¬ (b1 = 91 ∧ b2 = 68) ∧ ¬ (b1 = 91 ∧ b2 = 72) ∧ ¬ (b1 = 91 ∧ b2 = 70) ∧
          ¬ (b1 = 79 ∧ b2 = 72) ∧ ¬ (b1 = 79 ∧ b2 = 70) := by
        simpa [threeByteKeys] using hno
      obtain ⟨n1, n2, n3, n4, n5, n6, n7, n8⟩ := hno2
      rw [editorReadKey_idle idle _ hidle]
      simp only [editorReadKey, ESC, if_true, readEscape, read1_byte]
      by_cases h91 : b1 = 91
      · have hnd : ¬ (48 ≤ b2 ∧ b2 ≤ 57) := by omega
        have e1 : b2 ≠ 65 := by omega
        have e2 : b2 ≠ 66 := by omega
        have e3 : b2 ≠ 67 := by omega
        have e4 : b2 ≠ 68 := by omega
        have e5 : b2 ≠ 72 := by omega
        have e6 : b2 ≠ 70 := by omega
        simp only [if_pos h91, if_neg hnd, if_neg e1, if_neg e2, if_neg e3, if_neg e4,
          if_neg e5, if_neg e6]
      · by_cases h79 : b1 = 79
        · have e5 : b2 ≠ 72 := by omega
          have e6 : b2 ≠ 70 := by omega
          simp only [if_neg h91, if_pos h79, if_neg e5, if_neg e6]
        · simp only [if_neg h91, if_neg h79]
    refine ⟨h, ?_⟩
    rw [h, bytesConsumed, byteCount_idle idle _ hidle]
    simp only [byteCount, KeyResult.rest]
    omega
  · intro hdigit hno
    have h : editorReadKey (idle ++ ReadResult.byte 27 :: ReadResult.byte 91
        :: ReadResult.byte b2 :: ReadResult.byte b3 :: rest) = KeyResult.key 27 rest := by
      have hno2 : b3 = 126 → b2 ≠ 49 ∧ b2 ≠ 51 ∧ b2 ≠ 52 ∧ b2 ≠ 53 ∧ b2 ≠ 54 ∧ b2 ≠ 55 ∧
          b2 ≠ 56 := by
        intro h3
        simpa [digitKeys, h3] using hno
      rw [editorReadKey_idle idle _ hidle]
      simp only [editorReadKey, ESC, if_true, readEscape, read1_byte, if_pos hdigit]
      by_cases h3 : b3 = 126
      · obtain ⟨e1, e2, e3, e4, e5, e6, e7⟩ := hno2 h3
        simp only [if_pos h3, if_neg e1, if_neg e2, if_neg e3, if_neg e4, if_neg e5, if_neg e6,
          if_neg e7]
      · simp only [if_neg h3]
    refine ⟨h, ?_⟩
    rw [h, bytesConsumed, byteCount_idle idle _ hidle]
    simp only [byteCount, KeyResult.rest]
    omega

theorem readKey_unrecognised_witness :
    (editorReadKey (idlePolls ++ ReadResult.byte 27 :: ReadResult.byte 79 :: ReadResult.byte 50
        :: typedAhead) = KeyResult.key 27 typedAhead ∧
      bytesConsumed
        (idlePolls ++ ReadResult.byte 27 :: ReadResult.byte 79 :: ReadResult.byte 50
          :: typedAhead)
        (editorReadKey (idlePolls ++ ReadResult.byte 27 :: ReadResult.byte 79
          :: ReadResult.byte 50 :: typedAhead)) = 3) ∧
    (editorReadKey (idlePolls ++ ReadResult.byte 27 :: ReadResult.byte 91 :: ReadResult.byte 50
        :: ReadResult.byte 126 :: typedAhead) = KeyResult.key 27 typedAhead ∧
      bytesConsumed
        (idlePolls ++ ReadResult.byte 27 :: ReadResult.byte 91 :: ReadResult.byte 50
          :: ReadResult.byte 126 :: typedAhead)
        (editorReadKey (idlePolls ++ ReadResult.byte 27 :: ReadResult.byte 91
          :: ReadResult.byte 50 :: ReadResult.byte 126 :: typedAhead)) = 4) :=
  ⟨(readKey_unrecognised idlePolls typedAhead 79 50 126 (by decide)).1 (by decide) (by decide),
   (readKey_unrecognised idlePolls typedAhead 79 50 126 (by decide)).2 (by decide) (by decide)⟩


/-! ## Reachable states of the editor loop -/

theorem wrapInt_of_inRange (x : Int) (h0 : -2147483648 ≤ x) (h1 : x ≤ 2147483647) :
    wrapInt x = x := by
  unfold wrapInt
  omega

theorem editorScroll_invariant (doc : List erow) (rows cols : Int) (k : Nat) (E : editorConfig)
    (hr : 0 < rows) (hc : 0 < cols) (hI : loopInvariant doc rows cols k E) :
    loopInvariant doc rows cols (k + 1) (editorScroll E) := by
  obtain ⟨hrow, hnum, hsr, hsc, hcx, hcy, hro, hco⟩ := hI
  obtain ⟨d1, d2, d3, d4, d5, d6⟩ := editorScroll_cursor E
  refine ⟨d6.trans hrow, d5.trans hnum, d3.trans hsr, d4.trans hsc, ?_, ?_, ?_, ?_⟩
  · rw [d1]
    push_cast
    omega
  · rw [d2]
    exact hcy
  · rw [editorScroll_rowoff]
    split_ifs <;> omega
  · rw [editorScroll_coloff]
    push_cast
    split_ifs <;> omega

theorem editorMoveCursor_invariant (doc : List erow) (rows cols : Int) (k : Nat)
    (E : editorConfig) (key : Int) (hk : cols + ((k + 1 : Nat) : Int) ≤ 2147483647)
    (hI : loopInvariant doc rows cols k E) :
    loopInvariant doc rows cols (k + 1) (editorMoveCursor key E) := by
  obtain ⟨hrow, hnum, hsr, hsc, hcx, hcy, hro, hco⟩ := hI
  have hleft : wrapInt (E.cx - 1) = E.cx - 1 ∨ E.cx = 0 := by
    by_cases h : E.cx = 0
    · exact Or.inr h
    · exact Or.inl (wrapInt_of_inRange _ (by omega) (by push_cast at hk; omega))
  have hright : wrapInt (E.cx + 1) = E.cx + 1 :=
    wrapInt_of_inRange _ (by omega) (by push_cast at hk; omega)
  unfold editorMoveCursor
  split_ifs with h1 h2 h3 h4 h5 h6 h7 <;> refine ⟨hrow, hnum, hsr, hsc, ?_, ?_, ?_, ?_⟩ <;>
    (try dsimp only) <;> (try rw [hright]) <;>
    (try rw [hleft.resolve_right (by assumption)]) <;> omega

theorem dispatchKey_invariant (doc : List erow) (rows cols : Int) (k : Nat) (E : editorConfig)
    (c : Int) (hr : 0 < rows) (hc : 0 < cols) (hk : cols + ((k + 1 : Nat) : Int) ≤ 2147483647)
    (hI : loopInvariant doc rows cols k E) (hq : c ≠ CTRL_KEY 113) :
    ∃ E1, dispatchKey c E = Dispatch.resume E1 ∧ loopInvariant doc rows cols (k + 1) E1 := by
  have hmove := editorMoveCursor_invariant doc rows cols k E c hk hI
  obtain ⟨hrow, hnum, hsr, hsc, hcx, hcy, hro, hco⟩ := hI
  have hs : 0 ≤ E.screenrows := by omega
  have hpd := dispatch_page_down E hs (by omega)
  have hpu := dispatch_page_up E hs hcy.1
  by_cases h1 : c = HOME_KEY
  · have hd : dispatchKey c E = Dispatch.resume { E with cx := 0 } := by
      rw [h1]
      simp [dispatchKey, HOME_KEY, CTRL_KEY_q]
    refine ⟨_, hd, hrow, hnum, hsr, hsc, ?_, ?_, ?_, ?_⟩ <;> (try dsimp only) <;> omega
  by_cases h2 : c = END_KEY
  · have hd : dispatchKey c E = Dispatch.resume { E with cx := E.screencols - 1 } := by
      rw [h2]
      simp [dispatchKey, END_KEY, HOME_KEY, CTRL_KEY_q]
    refine ⟨_, hd, hrow, hnum, hsr, hsc, ?_, ?_, ?_, ?_⟩ <;> (try dsimp only) <;> omega
  by_cases h3 : c = PAGE_UP
  · rw [h3]
    refine ⟨_, hpu, hrow, hnum, hsr, hsc, ?_, ?_, ?_, ?_⟩ <;>
      simp only [pageUpJump] <;> omega
  by_cases h4 : c = PAGE_DOWN
  · rw [h4]
    refine ⟨_, hpd, hrow, hnum, hsr, hsc, ?_, ?_, ?_, ?_⟩ <;>
      simp only [pageDownJump] <;> omega
  by_cases h5 : c = ARROW_UP ∨ c = ARROW_LEFT ∨ c = ARROW_DOWN ∨ c = ARROW_RIGHT
  · exact ⟨_, by simp [dispatchKey, hq, h1, h2, h3, h4, h5], hmove⟩
  · refine ⟨E, by simp [dispatchKey, hq, h1, h2, h3, h4, h5], hrow, hnum, hsr, hsc, ?_, ?_, ?_, ?_⟩
      <;> (try dsimp only) <;> omega

theorem runSteps_invariant (doc : List erow) (rows cols : Int) (hr : 0 < rows) (hc : 0 < cols)
    (steps : List LoopStep) (hq : ∀ s ∈ steps, s.isQuit = false) (k : Nat) (E : editorConfig)
    (hk : cols + ((k + steps.length : Nat) : Int) ≤ 2147483647)
    (hI : loopInvariant doc rows cols k E) :
    ∃ E1, runSteps steps E = some E1 ∧ loopInvariant doc rows cols (k + steps.length) E1 := by
  induction steps generalizing k E with
  | nil => exact ⟨E, rfl, hI⟩
  | cons s steps ih =>
    have hs := hq s (List.mem_cons_self s steps)
    have hrest : ∀ t ∈ steps, t.isQuit = false := fun t ht => hq t (List.mem_cons_of_mem s ht)
    have hlen : k + (s :: steps).length = (k + 1) + steps.length := by
      rw [List.length_cons]
      omega
    rw [hlen] at hk ⊢
    have hk1 : cols + ((k + 1 : Nat) : Int) ≤ 2147483647 := by
      push_cast at hk ⊢
      omega
    cases s with
    | scroll =>
      have hstep := editorScroll_invariant doc rows cols k E hr hc hI
      simpa [runSteps, LoopStep.run] using ih hrest (k + 1) (editorScroll E) hk hstep
    | key c =>
      have hne : c ≠ CTRL_KEY 113 := by simpa [LoopStep.isQuit] using hs
      obtain ⟨E1, hd, hI1⟩ := dispatchKey_invariant doc rows cols k E c hr hc hk1 hI hne
      simpa [runSteps, LoopStep.run, hd] using ih hrest (k + 1) E1 hk hI1

theorem runSteps_append (a b : List LoopStep) (E : editorConfig) :
    runSteps (a ++ b) E = (runSteps a E).bind (runSteps b) := by
  induction a generalizing E with
  | nil => rfl
  | cons s a ih =>
    simp only [List.cons_append, runSteps]
    cases s.run E with
    | none => rfl
    | some E1 => exact ih E1

theorem dispatchKey_right (E : editorConfig) :
    dispatchKey ARROW_RIGHT E = Dispatch.resume { E with cx := wrapInt (E.cx + 1) } := by
  simp [dispatchKey, editorMoveCursor, ARROW_RIGHT, ARROW_LEFT, ARROW_UP, ARROW_DOWN, HOME_KEY,
    END_KEY, PAGE_UP, PAGE_DOWN, CTRL_KEY_q]

theorem runSteps_rights (n : Nat) (E : editorConfig) (h0 : 0 ≤ E.cx)
    (h1 : E.cx + (n : Int) ≤ 2147483647) :
    runSteps (List.replicate n (LoopStep.key ARROW_RIGHT)) E
      = some { E with cx := E.cx + (n : Int) } := by
  induction n generalizing E with
  | zero => simp [runSteps]
  | succ n ih =>
    have hw : wrapInt (E.cx + 1) = E.cx + 1 :=
      wrapInt_of_inRange _ (by omega) (by push_cast at h1; omega)
    rw [List.replicate_succ, runSteps, LoopStep.run, dispatchKey_right, hw]
    simp only
    rw [ih _ (by simp only; omega) (by simp only; push_cast at h1; omega)]
    simp only [Nat.cast_add, Nat.cast_one, Option.some.injEq, editorConfig.mk.injEq, true_and,
      and_true]
    ring

theorem runSteps_rights_overflow (n : Nat) (doc : List erow) (rows cols : Int)
    (hn : (n : Int) = 2147483647) :
    runSteps (List.replicate (n + 1) (LoopStep.key ARROW_RIGHT)) (startState doc rows cols)
      = some { startState doc rows cols with cx := -2147483648 } := by
  have h := runSteps_rights n (startState doc rows cols) (le_refl 0)
    (by
      show (0 : Int) + (n : Int) ≤ 2147483647
      omega)
  rw [List.replicate_succ', runSteps_append, h]
  simp only [Option.bind, runSteps, LoopStep.run, dispatchKey_right]
  have hcx : (startState doc rows cols).cx + (n : Int) + 1 = 2147483648 := by
    show (0 : Int) + (n : Int) + 1 = 2147483648
    omega
  simp only [hcx]
  rfl

/-- C19 (as stated, refuted). From the initial state with an empty document on a 24 by 80 screen,
the run of 2^31 Right-arrow keys, none of which is the quit key, ends in a state with
`cx == -2147483648`: the column is a 32-bit `int` and the last increment overflows it, so
`cx >= 0` does not hold after every finite sequence of steps. -/
theorem right_arrows_overflow :
    (0 : Int) < 24 ∧ (0 : Int) < 80 ∧ (∀ s ∈ rightArrows, s.isQuit = false) ∧
    ∃ E, runSteps rightArrows (startState [] 24 80) = some E ∧ E.cx = -2147483648 ∧
      ¬ (0 ≤ E.cx) := by
  refine ⟨by decide, by decide, ?_, _, runSteps_rights_overflow 2147483647 [] 24 80 rfl, rfl,
    by decide⟩
  intro s hs
  rw [List.eq_of_mem_replicate hs]
  decide

/-- C19 (amended). Reachable states of the editor loop: from the initial state (`cx = cy =
rowoff = coloff = 0`) with a document of `N` rows and positive screen dimensions, every sequence
of `k` steps with `screencols + k <= 2147483647`, each `editorScroll` or the dispatch of a key
other than Ctrl-Q, runs to a state with `cx >= 0`, `0 <= cy <= N`, `rowoff >= 0`, `coloff >= 0`
and the same document and dimensions.  In that state `cx <= screencols - 1 + k`, `coloff <= k`
and `rowoff <= max(0, N - screenrows + 1)`, so that `cx + 1`, `coloff + screencols` and
`rowoff + screenrows` are in the `int` range when `N + 1` is. -/
theorem loop_invariant_bounded_runs (doc : List erow) (rows cols : Int) (steps : List LoopStep)
    (hr : 0 < rows) (hc : 0 < cols) (hq : ∀ s ∈ steps, s.isQuit = false)
    (hk : cols + (steps.length : Int) ≤ 2147483647) :
    ∃ E, runSteps steps (startState doc rows cols) = some E ∧
      0 ≤ E.cx ∧ (0 ≤ E.cy ∧ E.cy ≤ (doc.length : Int)) ∧ 0 ≤ E.rowoff ∧ 0 ≤ E.coloff ∧
      E.row = doc ∧ E.numrows = (doc.length : Int) ∧
      E.screenrows = rows ∧ E.screencols = cols ∧
      E.cx ≤ cols - 1 + (steps.length : Int) ∧ E.coloff ≤ (steps.length : Int) ∧
      E.rowoff ≤ max 0 ((doc.length : Int) - rows + 1) ∧
      E.cx + 1 ≤ 2147483647 ∧ E.coloff + E.screencols ≤ 2147483647 ∧
      E.rowoff + E.screenrows ≤ max rows ((doc.length : Int) + 1) := by
  have h0 : loopInvariant doc rows cols 0 (startState doc rows cols) := by
    refine ⟨rfl, rfl, rfl, rfl, ?_, ?_, ?_, ?_⟩ <;>
      simp only [startState, initEditor, Nat.cast_zero] <;> omega
  obtain ⟨E, hrun, hrow, hnum, hsr, hsc, hcx, hcy, hro, hco⟩ :=
    runSteps_invariant doc rows cols hr hc steps hq 0 (startState doc rows cols)
      (by rw [Nat.zero_add]; exact hk) h0
  rw [Nat.zero_add] at hcx hco
  refine ⟨E, hrun, hcx.1, hcy, hro.1, hco.1, hrow, hnum, hsr, hsc, hcx.2, hco.2, hro.2,
    ?_, ?_, ?_⟩ <;> omega

theorem loop_invariant_bounded_runs_witness :
    ∃ E, runSteps sampleSteps (startState (twoLines.map storedRow) 24 80) = some E ∧
      0 ≤ E.cx ∧ (0 ≤ E.cy ∧ E.cy ≤ ((twoLines.map storedRow).length : Int)) ∧
      0 ≤ E.rowoff ∧ 0 ≤ E.coloff ∧
      E.row = twoLines.map storedRow ∧ E.numrows = ((twoLines.map storedRow).length : Int) ∧
      E.screenrows = 24 ∧ E.screencols = 80 ∧
      E.cx ≤ 80 - 1 + (sampleSteps.length : Int) ∧ E.coloff ≤ (sampleSteps.length : Int) ∧
      E.rowoff ≤ max 0 (((twoLines.map storedRow).length : Int) - 24 + 1) ∧
      E.cx + 1 ≤ 2147483647 ∧ E.coloff + E.screencols ≤ 2147483647 ∧
      E.rowoff + E.screenrows ≤ max 24 (((twoLines.map storedRow).length : Int) + 1) :=
  loop_invariant_bounded_runs (twoLines.map storedRow) 24 80 sampleSteps (by decide) (by decide)
    (by decide) (by decide)


end Kilo
